import Mathlib

/-!
# HTTP instrumentation adapter of the appsec subsystem (package `httpsec`)

A shallow embedding of `internal/appsec/dyngo/instrumentation/httpsec/http.go`.

* Go strings are Lean strings (sequences of runes).
* A Go `map[string]T` is a `GoMap T`: its entries as a list with lookup and update. When the
  source ranges over a map, the list order is the order in which the `range` statement visits
  the entries, which Go leaves unspecified; theorems therefore quantify over every order.
* Functions of the Go standard library that the package calls are the fields of `Lib`.
-/

namespace httpsec

/-! ## Go maps -/

/-- A Go `map[string]β`, as the list of its entries. -/
abbrev GoMap (β : Type) := List (String × β)

namespace GoMap

/-- Comma-ok lookup: `m[k]`, with `none` when the key is absent. -/
def get {β : Type} (m : GoMap β) (k : String) : Option β :=
  match m with
  | [] => none
  | (j, v) :: rest => if j = k then some v else get rest k

/-- Removal of the entry of key `k`, if any. -/
def erase {β : Type} (m : GoMap β) (k : String) : GoMap β :=
  match m with
  | [] => []
  | (j, v) :: rest => if j = k then erase rest k else (j, v) :: erase rest k

/-- Assignment `m[k] = v`: the entry of `k` is replaced, or added when absent. -/
def set {β : Type} (m : GoMap β) (k : String) (v : β) : GoMap β :=
  (k, v) :: erase m k

/-- The keys of the map. -/
def keys {β : Type} (m : GoMap β) : List String := m.map Prod.fst

end GoMap

/-! ## Standard library -/

/-- A parsed cookie (`http.Cookie`), reduced to the two fields the package reads. -/
structure Cookie where
  Name : String
  Value : String
  deriving DecidableEq, Repr

/-- The part of `url.URL` the package reads. -/
structure URL where
  RawQuery : String
  deriving DecidableEq, Repr

/-- The part of `http.Request` the package reads. `Header` lists the entries of the header map
in the order in which a `range` over it visits them. -/
structure Request where
  RequestURI : String
  Header : GoMap (List String)
  Host : String
  URL : URL
  deriving DecidableEq, Repr

/-- Standard-library functions whose code lies outside the repository. -/
structure Lib where
  /-- The case table `unicode.To(unicode.LowerCase, r)`, used for runes above `MaxASCII`. -/
  toLowerCase : Char → Char
  /-- The cookie parser `(*http.Request).Cookies`. -/
  Cookies : Request → List Cookie
  /-- The query parser `(*url.URL).Query`. -/
  Query : URL → GoMap (List String)

/-- The rune mapping `unicode.ToLower`: ASCII runes are lowered arithmetically, the others
through the case table. -/
def lowerRune (L : Lib) (c : Char) : Char :=
  if c.toNat < 128 then
    if 65 ≤ c.toNat ∧ c.toNat ≤ 90 then Char.ofNat (c.toNat + 32) else c
  else L.toLowerCase c

/-- The function `strings.ToLower`: every rune mapped by `unicode.ToLower`. -/
def ToLower (L : Lib) (s : String) : String :=
  String.mk (s.data.map (lowerRune L))

/-- The type `netip.Addr`, kept opaque. -/
abbrev Addr := String

/-! ## Operation arguments -/

/-- HandlerOperationArgs is the HTTP handler operation arguments. `Cookies` is `none` for a
nil map. -/
structure HandlerOperationArgs where
  RequestURI : String
  Headers : GoMap (List String)
  Cookies : Option (GoMap (List String))
  Query : GoMap (List String)
  PathParams : GoMap String
  ClientIP : Addr
  deriving DecidableEq, Repr

/-- HandlerOperationRes is the HTTP handler operation results. -/
structure HandlerOperationRes where
  Status : Int
  deriving DecidableEq, Repr

/-- One iteration of the loop of `makeCookies`:
`cookies[c.Name] = append(cookies[c.Name], c.Value)`. -/
def makeCookiesStep (cookies : GoMap (List String)) (c : Cookie) : GoMap (List String) :=
  cookies.set c.Name ((cookies.get c.Name).getD [] ++ [c.Value])

/-- The loop of `makeCookies` over the parsed cookies. -/
def makeCookiesLoop (parsed : List Cookie) : GoMap (List String) :=
  parsed.foldl makeCookiesStep []

/-- Return the map of parsed cookies if any; `none` is the nil map. -/
def makeCookies (L : Lib) (r : Request) : Option (GoMap (List String)) :=
  let parsed := L.Cookies r
  if parsed.length = 0 then none else some (makeCookiesLoop parsed)

/-- One iteration of the header loop of `MakeHandlerOperationArgs`. -/
def headerStep (L : Lib) (headers : GoMap (List String)) (kv : String × List String) :
    GoMap (List String) :=
  let k := ToLower L kv.1
  if k = "cookie" then headers else headers.set k kv.2

/-- The header loop of `MakeHandlerOperationArgs`, from the empty map. -/
def headerLoop (L : Lib) (hdr : GoMap (List String)) : GoMap (List String) :=
  hdr.foldl (headerStep L) []

/-- MakeHandlerOperationArgs creates the HandlerOperationArgs out of a request, a client IP
and the path parameters. -/
def MakeHandlerOperationArgs (L : Lib) (r : Request) (clientIP : Addr)
    (pathParams : GoMap String) : HandlerOperationArgs :=
  let headers := headerLoop L r.Header
  let cookies := makeCookies L r
  let headers := headers.set "host" [r.Host]
  { RequestURI := r.RequestURI
    Headers := headers
    Cookies := cookies
    Query := L.Query r.URL
    PathParams := pathParams
    ClientIP := clientIP }

/-! ## Payloads, actions and operation state -/

/-- The identity of an operation (the address of a `*Operation` or `*SDKBodyOperation`):
its rank of creation. -/
abbrev OpId := Nat

/-- A parsed request body, an `interface{}` whose content the package never inspects. -/
abbrev Body := String

/-- SDKBodyOperationArgs is the SDK body operation arguments. -/
structure SDKBodyOperationArgs where
  Body : Body
  deriving DecidableEq, Repr

/-- SDKBodyOperationRes is the SDK body operation results. -/
structure SDKBodyOperationRes where
  deriving DecidableEq, Repr

/-- An `interface{}` handed to the dispatcher, with its dynamic type. -/
inductive Payload
  | handlerOperationArgs (v : HandlerOperationArgs)
  | handlerOperationRes (v : HandlerOperationRes)
  | sdkBodyOperationArgs (v : SDKBodyOperationArgs)
  | sdkBodyOperationRes (v : SDKBodyOperationRes)
  deriving DecidableEq, Repr

/-- The four `reflect.Type` values declared by the package. -/
inductive ReflectType
  | handlerOperationArgsType
  | handlerOperationResType
  | sdkBodyOperationArgsType
  | sdkBodyOperationResType
  deriving DecidableEq, Repr

/-- The function `reflect.TypeOf` on payloads. -/
def Payload.TypeOf : Payload → ReflectType
  | .handlerOperationArgs _ => .handlerOperationArgsType
  | .handlerOperationRes _ => .handlerOperationResType
  | .sdkBodyOperationArgs _ => .sdkBodyOperationArgsType
  | .sdkBodyOperationRes _ => .sdkBodyOperationResType

/-- A non-nil `http.Handler`, known by its identity. -/
structure Handler where
  name : String
  deriving DecidableEq, Repr

/-- Modelled from the spec: the block action, declared outside src/ ("block with given
handler": it "supplies a replacement HTTP handler"). -/
structure BlockRequestAction where
  handler : Handler
  deriving DecidableEq, Repr

/-- Modelled from the spec: the `Action` interface, declared outside src/. A value is a
`*BlockRequestAction` or has another dynamic type, known by its name. -/
inductive Action
  | block (a : BlockRequestAction)
  | other (typeName : String)
  deriving DecidableEq, Repr

/-- The value of a tag, an `interface{}`. -/
inductive TagValue
  | bool (b : Bool)
  | string (s : String)
  | int (i : Int)
  deriving DecidableEq, Repr

/-- The mutable fields of an `Operation`: the tags of its `TagsHolder`, the events of its
`SecurityEventsHolder` (each a `json.RawMessage`) and its `actions`. -/
structure OperationState where
  tags : GoMap TagValue
  events : List String
  actions : List Action
  deriving DecidableEq, Repr

/-- The mutable fields of every operation, by identity. -/
abbrev Store := OpId → OperationState

/-- Modelled from the spec: the constant `instrumentation.BlockedRequestTag`, declared outside
src/; it names the blocked-request tag and no statement depends on its spelling. -/
def BlockedRequestTag : String := "appsec.blocked"

/-! ## The dispatcher (package `dyngo`) -/

namespace dyngo

/-- A value of the interface `dyngo.Operation`, with its dynamic type: a `*Operation` or a
`*SDKBodyOperation`. -/
inductive Operation
  | http (op : OpId)
  | sdkBody (op : OpId)
  deriving DecidableEq, Repr

/-- The identity of the operation behind the interface value. -/
def Operation.id : Operation → OpId
  | .http op => op
  | .sdkBody op => op

/-- Modelled from the spec: a node of the operation tree, declared outside src/: an optional
parent fixed at creation (`none`: child of the process-wide root) and whether the operation
has finished. -/
structure Node where
  parent : Option OpId
  finished : Bool
  deriving DecidableEq, Repr

/-- Modelled from the spec: where a listener is registered: on the process-wide root or on an
operation. -/
inductive Scope
  | root
  | op (id : OpId)
  deriving DecidableEq, Repr

/-- Modelled from the spec: the two events of an operation. -/
inductive Phase
  | start
  | finish
  deriving DecidableEq, Repr

end dyngo

/-- The four event listener types of the package; a callback acts on the mutable fields of
the operations. -/
inductive EventListener
  | OnHandlerOperationStart (f : OpId → HandlerOperationArgs → Store → Store)
  | OnHandlerOperationFinish (f : OpId → HandlerOperationRes → Store → Store)
  | OnSDKBodyOperationStart (f : OpId → SDKBodyOperationArgs → Store → Store)
  | OnSDKBodyOperationFinish (f : OpId → SDKBodyOperationRes → Store → Store)

namespace EventListener

/-- ListenedType returns the type an event listener listens to. -/
def ListenedType : EventListener → ReflectType
  | .OnHandlerOperationStart _ => .handlerOperationArgsType
  | .OnHandlerOperationFinish _ => .handlerOperationResType
  | .OnSDKBodyOperationStart _ => .sdkBodyOperationArgsType
  | .OnSDKBodyOperationFinish _ => .sdkBodyOperationResType

/-- Call calls the underlying event listener function after the two type assertions, on the
operation and on the payload; `none` is the panic of a failed assertion. -/
def Call : EventListener → dyngo.Operation → Payload → Store → Option Store
  | .OnHandlerOperationStart f, .http op, .handlerOperationArgs v, s => some (f op v s)
  | .OnHandlerOperationFinish f, .http op, .handlerOperationRes v, s => some (f op v s)
  | .OnSDKBodyOperationStart f, .sdkBody op, .sdkBodyOperationArgs v, s => some (f op v s)
  | .OnSDKBodyOperationFinish f, .sdkBody op, .sdkBodyOperationRes v, s => some (f op v s)
  | _, _, _, _ => none

/-- Modelled from the spec: whether the listener is a start-listener or a finish-listener. -/
def phase : EventListener → dyngo.Phase
  | .OnHandlerOperationStart _ => .start
  | .OnHandlerOperationFinish _ => .finish
  | .OnSDKBodyOperationStart _ => .start
  | .OnSDKBodyOperationFinish _ => .finish

end EventListener

/-- A call of the dispatcher, as recorded in the trace. -/
structure Dispatched where
  phase : dyngo.Phase
  op : dyngo.Operation
  payload : Payload
  deriving DecidableEq, Repr

/-- The levels of package `log` that the package uses. -/
inductive LogLevel
  | error
  | warn
  deriving DecidableEq, Repr

/-- A line of the log. -/
structure LogEntry where
  level : LogLevel
  msg : String
  deriving DecidableEq, Repr

/-- The state of the process that the package reads and writes. -/
structure World where
  /-- The operations created so far, the operation of identity `i` at rank `i`. -/
  ops : List dyngo.Node
  /-- The registered listeners with their scope, in registration order. -/
  listeners : List (dyngo.Scope × EventListener)
  /-- The mutable fields of the operations. -/
  store : Store
  /-- The events dispatched so far, oldest first. -/
  trace : List Dispatched
  /-- The log, oldest line first. -/
  log : List LogEntry

/-- The call `log.Error(msg)`. -/
def log.Error (w : World) (msg : String) : World :=
  { w with log := w.log ++ [⟨.error, msg⟩] }

namespace dyngo

/-- Modelled from the spec: `NewOperation(parent)` "constructs an operation node. If parent is
nil, the node roots a fresh tree at the process-wide root scope; otherwise it is a child of
parent". The function is outside src/. -/
def NewOperation (w : World) (parent : Option OpId) : World × OpId :=
  ({ w with ops := w.ops ++ [⟨parent, false⟩] }, w.ops.length)

/-- Modelled from the spec: the scopes met "walking from op up through every ancestor
(including the implicit process-wide root)", innermost first. A parent is created before its
children, so `ops.length` steps reach the root. -/
def scopesFrom (ops : List Node) : Nat → OpId → List Scope
  | 0, _ => [.root]
  | fuel + 1, id =>
    .op id :: match ops[id]? with
      | some ⟨some p, _⟩ => scopesFrom ops fuel p
      | _ => [.root]

/-- Modelled from the spec: the listeners that an event of `op` reaches: for each scope from
`op` outwards, the listeners of that scope and phase, "in listener-registration order". -/
def reached (w : World) (ph : Phase) (op : OpId) : List EventListener :=
  (scopesFrom w.ops w.ops.length op).flatMap (fun sc =>
    (w.listeners.filter (fun e => e.1 = sc ∧ e.2.phase = ph)).map Prod.snd)

/-- Modelled from the spec: the dispatcher "invokes every registered listener whose subscribed
type matches the payload's runtime type", "passing (op, args)"; it "uses that declaration to
filter before invoking". -/
def emitEvent : List EventListener → Operation → Payload → Store → Option Store
  | [], _, _, s => some s
  | l :: rest, op, v, s =>
    if l.ListenedType = v.TypeOf then
      match l.Call op v s with
      | some s1 => emitEvent rest op v s1
      | none => none
    else emitEvent rest op v s

/-- Modelled from the spec: `StartOperation(op, args)` dispatches the start event of `op` to
the start-listeners it reaches. The function is outside src/. `none` is a panic. -/
def StartOperation (w : World) (op : Operation) (args : Payload) : Option World :=
  match emitEvent (reached w .start op.id) op args w.store with
  | some s => some { w with store := s, trace := w.trace ++ [⟨.start, op, args⟩] }
  | none => none

/-- Modelled from the spec: `FinishOperation(op, res)` is "symmetric to Start, dispatching to
finish-listeners"; "a second call is a programming error (undefined/ignored — treat as
no-op)". The function is outside src/. `none` is a panic. -/
def FinishOperation (w : World) (op : Operation) (res : Payload) : Option World :=
  match w.ops[op.id]? with
  | some ⟨parent, false⟩ =>
    match emitEvent (reached w .finish op.id) op res w.store with
    | some s =>
      some { w with
        ops := w.ops.set op.id ⟨parent, true⟩
        store := s
        trace := w.trace ++ [⟨.finish, op, res⟩] }
    | none => none
  | _ => some w

/-- Modelled from the spec: `On` registers a listener on a scope, after those already
registered. The function is outside src/. -/
def On (w : World) (sc : Scope) (l : EventListener) : World :=
  { w with listeners := w.listeners ++ [(sc, l)] }

end dyngo

/-! ## Contexts -/

/-- The keys of a `context.Context`: `instrumentation.ContextKey{}` or any other key. -/
inductive ContextKey
  | instrumentation
  | other (name : String)
  deriving DecidableEq, Repr

/-- The values of a `context.Context`, with their dynamic type; a pointer may be nil. -/
inductive ContextValue
  | httpOperation (op : Option OpId)
  | sdkBodyOperation (op : Option OpId)
  | other (v : String)
  deriving DecidableEq, Repr

/-- A `context.Context`: the background, or the result of `context.WithValue`. -/
inductive Context
  | background
  | WithValue (parent : Context) (key : ContextKey) (val : ContextValue)
  deriving DecidableEq, Repr

/-- The method `ctx.Value(key)`; `none` is the nil interface. -/
def Context.Value : Context → ContextKey → Option ContextValue
  | .background, _ => none
  | .WithValue parent key val, k => if key = k then some val else parent.Value k

/-- fromContext returns the Operation object stored in the context, if any. -/
def fromContext (ctx : Context) : Option OpId :=
  match ctx.Value .instrumentation with
  | some (.httpOperation op) => op
  | _ => none

/-! ## HTTP and SDK body operations -/

/-- Actions returns the actions linked to the operation. -/
def Operation.Actions (w : World) (op : OpId) : List Action :=
  (w.store op).actions

/-- AddAction adds an action to the operation. -/
def Operation.AddAction (w : World) (op : OpId) (a : Action) : World :=
  { w with
    store := Function.update w.store op
      { (w.store op) with actions := (w.store op).actions ++ [a] } }

/-- ClearActions clears all the actions linked to the operation. -/
def Operation.ClearActions (w : World) (op : OpId) : World :=
  { w with
    store := Function.update w.store op
      { (w.store op) with actions := (w.store op).actions.take 0 } }

/-- Modelled from the spec: `AddTag` of the `TagsHolder`, declared outside src/: tags are
"string key → arbitrary value, last-write-wins". -/
def Operation.AddTag (w : World) (op : OpId) (k : String) (v : TagValue) : World :=
  { w with
    store := Function.update w.store op
      { (w.store op) with tags := (w.store op).tags.set k v } }

/-- Modelled from the spec: `Events` of the `SecurityEventsHolder`, declared outside src/:
"the list of security events accumulated by listeners", in emission order. -/
def Operation.Events (w : World) (op : OpId) : List String :=
  (w.store op).events

/-- Modelled from the spec: the effect on the store of a listener adding security events to
an operation, after those already accumulated. -/
def AddSecurityEvents (s : Store) (op : OpId) (events : List String) : Store :=
  Function.update s op { (s op) with events := (s op).events ++ events }

/-- The loop of `applyActions` over the actions read at its start: the first block action
tags the operation and ends the loop with its handler; any other action is logged. -/
def applyActionsLoop (w : World) (op : OpId) : List Action → World × Option Handler
  | [] => (w, none)
  | .block a :: _ => (Operation.AddTag w op BlockedRequestTag (.bool true), some a.handler)
  | .other typeName :: rest =>
    applyActionsLoop
      (log.Error w ("appsec: ignoring security action: unexpected action type " ++ typeName))
      op rest

/-- applyActions executes the operation's actions and returns the resulting http handler;
the deferred `ClearActions` runs last. -/
def applyActions (w : World) (op : OpId) : World × Option Handler :=
  let r := applyActionsLoop w op (Operation.Actions w op)
  (Operation.ClearActions r.1 op, r.2)

/-- StartOperation starts an HTTP handler operation: a new operation with a nil parent and
fresh holders, stored in a new context, then the start event. `none` is a panic. -/
def StartOperation (w : World) (ctx : Context) (args : HandlerOperationArgs) :
    Option (World × Context × OpId) :=
  let (w1, op) := dyngo.NewOperation w none
  let w2 := { w1 with store := Function.update w1.store op ⟨[], [], []⟩ }
  let newCtx := Context.WithValue ctx .instrumentation (.httpOperation (some op))
  match dyngo.StartOperation w2 (.http op) (.handlerOperationArgs args) with
  | some w3 => some (w3, newCtx, op)
  | none => none

/-- Finish the HTTP handler operation: the finish event, then the events of the operation.
`none` is a panic. -/
def Operation.Finish (w : World) (op : OpId) (res : HandlerOperationRes) :
    Option (World × List String) :=
  match dyngo.FinishOperation w (.http op) (.handlerOperationRes res) with
  | some w1 => some (w1, Operation.Events w1 op)
  | none => none

/-- StartSDKBodyOperation starts the SDKBody operation and emits a start event. -/
def StartSDKBodyOperation (w : World) (parent : OpId) (args : SDKBodyOperationArgs) :
    Option (World × OpId) :=
  let (w1, op) := dyngo.NewOperation w (some parent)
  match dyngo.StartOperation w1 (.sdkBody op) (.sdkBodyOperationArgs args) with
  | some w2 => some (w2, op)
  | none => none

/-- Finish finishes the SDKBody operation and emits a finish event. -/
def SDKBodyOperation.Finish (w : World) (op : OpId) : Option World :=
  dyngo.FinishOperation w (.sdkBody op) (.sdkBodyOperationRes {})

/-- The message that `MonitorParsedBody` logs when the context holds no operation. -/
def monitorParsedBodyError : String :=
  "appsec: parsed http body monitoring ignored: could not find the http handler instrumentation metadata in the request context: the request handler is not being monitored by a middleware function or the provided context is not the expected request context"

/-- MonitorParsedBody starts and finishes the SDK body operation. -/
def MonitorParsedBody (w : World) (ctx : Context) (body : Body) : Option World :=
  match fromContext ctx with
  | some parent =>
    match StartSDKBodyOperation w parent { Body := body } with
    | some (w1, op) => SDKBodyOperation.Finish w1 op
    | none => none
  | none => some (log.Error w monitorParsedBodyError)

/-- The dynamic type name that the format verb `%T` prints for an action. -/
def Action.typeName : Action → String
  | .block _ => "*httpsec.BlockRequestAction"
  | .other typeName => typeName

/-- The line that `applyActions` logs for an action it ignores. -/
def ignoredActionEntry (a : Action) : LogEntry :=
  ⟨.error, "appsec: ignoring security action: unexpected action type " ++ a.typeName⟩

/-- Whether the action is a block-request action. -/
def Action.isBlock : Action → Bool
  | .block _ => true
  | .other _ => false

/-- The pairs of operation and payload that the package hands to the dispatcher: an HTTP
operation with handler arguments or results, an SDK body operation with body arguments or
results. -/
def dyngo.Dispatchable : dyngo.Operation → Payload → Bool
  | .http _, .handlerOperationArgs _ => true
  | .http _, .handlerOperationRes _ => true
  | .sdkBody _, .sdkBodyOperationArgs _ => true
  | .sdkBody _, .sdkBodyOperationRes _ => true
  | _, _ => false

/-- The world in which the pending actions of `op` are `as`, added with `AddAction` in that
order to an operation without pending action. -/
def addActions (w : World) (op : OpId) (as : List Action) : World :=
  as.foldl (fun w a => Operation.AddAction w op a) (Operation.ClearActions w op)

/-- A finish listener that adds the security event `e` to the finishing operation. -/
def addEventOnFinish (e : String) : EventListener :=
  .OnHandlerOperationFinish (fun op _ s => AddSecurityEvents s op [e])

/-- The world before anything happened. -/
def World.initial : World :=
  { ops := [], listeners := [], store := fun _ => ⟨[], [], []⟩, trace := [], log := [] }

/-- The entry that a `range` over `hdr` visits last among those whose lowered key is `j`. -/
def lastWithLower (L : Lib) (hdr : GoMap (List String)) (j : String) :
    Option (String × List String) :=
  hdr.reverse.find? (fun kv => ToLower L kv.1 = j)

/-- The values of the cookies named `n`, in their order of occurrence. -/
def cookieValues (cs : List Cookie) (n : String) : List String :=
  (cs.filter (fun c => c.Name = n)).map Cookie.Value

/-- A library instance for concrete evaluation: identity case table above ASCII, a cookie
parser answering `cs`, and an empty query. -/
def asciiLib (cs : List Cookie) : Lib where
  toLowerCase := id
  Cookies := fun _ => cs
  Query := fun _ => []

/-! ## Package initialisation: the blocked-response templates -/

/-- The process environment and the file system, as `init` reads them: `os.LookupEnv`, and
`os.ReadFile` answering the contents or the text of an error. -/
structure OS where
  LookupEnv : String → Option String
  ReadFile : String → Except String String

/-- The two package variables holding the templates; before `init` they hold the embedded
files. -/
structure Templates where
  blockedTemplateJSON : String
  blockedTemplateHTML : String
  deriving DecidableEq, Repr

/-- The pointers `&blockedTemplateJSON` and `&blockedTemplateHTML`. -/
inductive TemplateRef
  | json
  | html
  deriving DecidableEq, Repr

/-- The constant `envBlockedTemplateHTML`. -/
def envBlockedTemplateHTML : String := "DD_APPSEC_HTTP_BLOCKED_TEMPLATE_HTML"

/-- The constant `envBlockedTemplateJSON`. -/
def envBlockedTemplateJSON : String := "DD_APPSEC_HTTP_BLOCKED_TEMPLATE_JSON"

/-- The assignment `*template = t`. -/
def TemplateRef.assign (ref : TemplateRef) (ts : Templates) (t : String) : Templates :=
  match ref with
  | .json => { ts with blockedTemplateJSON := t }
  | .html => { ts with blockedTemplateHTML := t }

/-- The line that `init` logs when the template at `path` cannot be read. -/
def templateWarning (path err : String) : LogEntry :=
  ⟨.warn, "Could not read template at " ++ path ++ ": " ++ err⟩

/-- One iteration of the loop of `init`, on the entry `(env, template)`. -/
def initStep (os : OS) (st : Templates × List LogEntry) (entry : String × TemplateRef) :
    Templates × List LogEntry :=
  match os.LookupEnv entry.1 with
  | some path =>
    match os.ReadFile path with
    | .error err => (st.1, st.2 ++ [templateWarning path err])
    | .ok t => (entry.2.assign st.1 t, st.2)
  | none => st

/-- The entries of the map literal of `init`, in one of the two orders in which `range` may
visit them. -/
def initEntries (jsonFirst : Bool) : GoMap TemplateRef :=
  if jsonFirst then
    [(envBlockedTemplateJSON, .json), (envBlockedTemplateHTML, .html)]
  else
    [(envBlockedTemplateHTML, .html), (envBlockedTemplateJSON, .json)]

/-- The function `init` of the package; it returns the templates and the log. -/
def init (os : OS) (jsonFirst : Bool) (ts : Templates) (log : List LogEntry) :
    Templates × List LogEntry :=
  (initEntries jsonFirst).foldl (initStep os) (ts, log)

/-- The template that the variable `env` selects: the contents of the file it names when it
is set and the file can be read, the present template otherwise. -/
def selectedTemplate (os : OS) (env : String) (present : String) : String :=
  match os.LookupEnv env with
  | some path =>
    match os.ReadFile path with
    | .ok t => t
    | .error _ => present
  | none => present

/-- The warnings due for the variable `env`: one when it is set and its file cannot be
read. -/
def dueWarnings (os : OS) (env : String) : List LogEntry :=
  match os.LookupEnv env with
  | some path =>
    match os.ReadFile path with
    | .ok _ => []
    | .error err => [templateWarning path err]
  | none => []

/-- An environment for concrete evaluation: the JSON variable names a file that cannot be
read, the HTML variable names a readable file. -/
def sampleOS : OS where
  LookupEnv := fun env =>
    if env = envBlockedTemplateJSON then some "/etc/blocked.json"
    else if env = envBlockedTemplateHTML then some "/etc/blocked.html"
    else none
  ReadFile := fun path =>
    if path = "/etc/blocked.html" then .ok "<html>blocked</html>"
    else .error "no such file or directory"

/-! ## The wrapped handler -/

/-- The `http.ResponseWriter` of a request: the answer of its `Status()` method, when it has
one, and its header map. -/
structure ResponseWriter where
  Status : Option Int
  Header : GoMap (List String)
  deriving DecidableEq, Repr

/-- What the wrapped handler reads of `*http.Request` beyond `Request`: the remote address and
the context `r.Context()`. -/
structure Incoming where
  req : Request
  RemoteAddr : String
  ctx : Context
  deriving DecidableEq, Repr

/-- A call made on the span. -/
inductive SpanCall
  | SetAppSecEnabledTags
  | SetStringTags (tags : GoMap String)
  | SetTags (tags : GoMap TagValue)
  | SetSecurityEventTags (events : List String) (headers : GoMap (List String))
      (respHeaders : GoMap (List String))
  deriving DecidableEq, Repr

/-- The two places where the wrapped handler calls `ServeHTTP`: `handler.ServeHTTP(w, r)` on
the captured variable, and `h.ServeHTTP(w, r)` on the handler of an action after the finish
event. -/
inductive CallSite
  | handler
  | finishAction
  deriving DecidableEq, Repr

/-- A call of `ServeHTTP` made by the wrapped handler. -/
structure Invocation where
  site : CallSite
  handler : Handler
  deriving DecidableEq, Repr

/-- Code that the wrapped handler calls and that lies outside src/: `ClientIPTags`, and the
bodies of the handlers, which act on the mutable fields of the operations and on the
response writer. -/
structure Deps where
  ClientIPTags : GoMap (List String) → Bool → String → GoMap String × Addr
  ServeHTTP : Handler → Incoming → Store × ResponseWriter → Store × ResponseWriter

/-- The variables captured by the closure that `WrapHandler` returns; the closure assigns
`handler`. -/
structure Closure where
  handler : Handler
  pathParams : GoMap String
  deriving DecidableEq, Repr

/-- The state outside the closure: the world, the calls made on the span and the calls of
`ServeHTTP` made so far. -/
structure Process where
  world : World
  spanCalls : List SpanCall
  invoked : List Invocation

/-- Modelled from the spec: `Tags` of the `TagsHolder`, declared outside src/. -/
def Operation.Tags (w : World) (op : OpId) : GoMap TagValue :=
  (w.store op).tags

/-- WrapHandler wraps the given HTTP handler: it tags the span and returns the closure. -/
def WrapHandler (p : Process) (handler : Handler) (pathParams : GoMap String) :
    Process × Closure :=
  ({ p with spanCalls := p.spanCalls ++ [.SetAppSecEnabledTags] },
   { handler := handler, pathParams := pathParams })

/-- The status that the deferred function reads: `mw.Status()` when the writer has the
method, 0 otherwise. -/
def ResponseWriter.statusOrZero (rw : ResponseWriter) : Int :=
  match rw.Status with
  | some st => st
  | none => 0

/-- The assignment `if h != nil { handler = h }` on the captured variable. -/
def Closure.assign (c : Closure) (h : Option Handler) : Closure :=
  match h with
  | some h => { c with handler := h }
  | none => c

/-- The state of a call of the closure when `handler.ServeHTTP(w, r)` has returned and the
deferred function is about to run: the captured variables, the process, the writer, the
request carrying the new context, the operation and its arguments. -/
structure Frame where
  closure : Closure
  process : Process
  writer : ResponseWriter
  request : Incoming
  op : OpId
  args : HandlerOperationArgs

/-- The body of the closure up to and including `handler.ServeHTTP(w, r)`. `none` is a
panic. -/
def Closure.body (L : Lib) (D : Deps) (c : Closure) (p : Process) (rw : ResponseWriter)
    (r : Incoming) : Option Frame :=
  let ip := D.ClientIPTags r.req.Header true r.RemoteAddr
  let p1 : Process := { p with spanCalls := p.spanCalls ++ [.SetStringTags ip.1] }
  let args := MakeHandlerOperationArgs L r.req ip.2 c.pathParams
  match StartOperation p1.world r.ctx args with
  | none => none
  | some (w1, ctx, op) =>
    let r1 : Incoming := { r with ctx := ctx }
    let a := applyActions w1 op
    let c1 := c.assign a.2
    let out := D.ServeHTTP c1.handler r1 (a.1.store, rw)
    some
      { closure := c1
        process :=
          { p1 with
            world := { a.1 with store := out.1 }
            invoked := p1.invoked ++ [⟨.handler, c1.handler⟩] }
        writer := out.2
        request := r1
        op := op
        args := args }

/-- The deferred function of the closure, run after `handler.ServeHTTP(w, r)`. `none` is a
panic. -/
def Closure.deferred (D : Deps) (f : Frame) : Option (Process × ResponseWriter) :=
  match Operation.Finish f.process.world f.op { Status := f.writer.statusOrZero } with
  | none => none
  | some (w1, events) =>
    let a := applyActions w1 f.op
    let served : Process × ResponseWriter :=
      match a.2 with
      | some h =>
        let out := D.ServeHTTP h f.request (a.1.store, f.writer)
        ({ f.process with
            world := { a.1 with store := out.1 }
            invoked := f.process.invoked ++ [⟨.finishAction, h⟩] }, out.2)
      | none => ({ f.process with world := a.1 }, f.writer)
    let p2 : Process :=
      { served.1 with
        spanCalls := served.1.spanCalls ++ [.SetTags (Operation.Tags served.1.world f.op)] }
    if events.length = 0 then some (p2, served.2)
    else
      some ({ p2 with
              spanCalls := p2.spanCalls
                ++ [.SetSecurityEventTags events f.args.Headers served.2.Header] },
            served.2)

/-- The closure returned by `WrapHandler`, serving the request `r` on the writer `rw`: its
body, then its deferred function; it returns the captured variables as it leaves them.
`none` is a panic. -/
def Closure.ServeHTTP (L : Lib) (D : Deps) (c : Closure) (p : Process) (rw : ResponseWriter)
    (r : Incoming) : Option (Closure × Process × ResponseWriter) :=
  match Closure.body L D c p rw r with
  | none => none
  | some f =>
    match Closure.deferred D f with
    | none => none
    | some (p3, rw3) => some (f.closure, p3, rw3)

/-- The closure serving the requests `rs` one after the other, each on the writer `rw`; it
returns the captured variables and the process after the last request. `none` is a panic. -/
def Closure.serveAll (L : Lib) (D : Deps) (rw : ResponseWriter) :
    Closure → Process → List Incoming → Option (Closure × Process)
  | c, p, [] => some (c, p)
  | c, p, r :: rest =>
    match Closure.ServeHTTP L D c p rw r with
    | none => none
    | some (c1, p1, _) => Closure.serveAll L D rw c1 p1 rest

/-- A start listener that adds a block action with handler `b` when the request URI is
`uri`. -/
def blockOnStart (uri : String) (b : Handler) : EventListener :=
  .OnHandlerOperationStart (fun op args s =>
    if args.RequestURI = uri then
      Function.update s op { (s op) with actions := (s op).actions ++ [.block ⟨b⟩] }
    else s)

/-- A finish listener that adds a block action with handler `b`. -/
def blockOnFinish (b : Handler) : EventListener :=
  .OnHandlerOperationFinish (fun op _ s =>
    Function.update s op { (s op) with actions := (s op).actions ++ [.block ⟨b⟩] })

/-- Dependencies for concrete evaluation: no IP tag, a fixed client address, and handlers
that leave the operations and the writer as they are. -/
def quietDeps : Deps where
  ClientIPTags := fun _ _ _ => ([], "1.2.3.4")
  ServeHTTP := fun _ _ st => st

/-- Dependencies for concrete evaluation in which every handler records its name in the
response header `X-Handler` when it serves. -/
def recordingDeps : Deps where
  ClientIPTags := fun _ _ _ => ([], "1.2.3.4")
  ServeHTTP := fun h _ st =>
    (st.1, { st.2 with
      Header := st.2.Header.set "X-Handler"
        ((st.2.Header.get "X-Handler").getD [] ++ [h.name]) })

/-- Dependencies for concrete evaluation in which the handler named `block` reads the
operation from the context of the request and adds an action to it; the other handlers leave
everything as it is. -/
def lateActionDeps : Deps where
  ClientIPTags := fun _ _ _ => ([], "1.2.3.4")
  ServeHTTP := fun h r st =>
    if h.name = "block" then
      match fromContext r.ctx with
      | some op =>
        (Function.update st.1 op
          { (st.1 op) with actions := (st.1 op).actions ++ [.other "late"] }, st.2)
      | none => st
    else st

/-- A process with the listeners `ls` registered on the root, before any request. -/
def Process.withRootListeners (ls : List EventListener) : Process :=
  { world := ls.foldl (fun w l => dyngo.On w .root l) World.initial
    spanCalls := []
    invoked := [] }

/-- A request for `uri` with the background context. -/
def requestFor (uri : String) : Incoming :=
  { req := { RequestURI := uri, Header := [], Host := "example.com", URL := ⟨""⟩ }
    RemoteAddr := "1.2.3.4:80"
    ctx := .background }

end httpsec

/-! ## Floating-point numbers -/

/-- A `float64` by what it denotes: a NaN, an infinity, or a finite number. -/
inductive Float64
  | NaN
  | Inf (negative : Bool)
  | finite (q : ℚ)
  deriving DecidableEq

namespace Float64

/-- The comparison `a <= b` of Go: false when an operand is NaN, the order of the extended
number line otherwise. -/
def le : Float64 → Float64 → Bool
  | .NaN, _ => false
  | _, .NaN => false
  | .Inf true, _ => true
  | _, .Inf false => true
  | .Inf false, _ => false
  | _, .Inf true => false
  | .finite a, .finite b => decide (a ≤ b)

/-- The comparison `a >= b` of Go. -/
def ge (a b : Float64) : Bool := le b a

/-- Whether the number is finite and lies in the closed interval from 0 to 1. -/
def InUnitInterval (x : Float64) : Prop :=
  ∃ q : ℚ, x = .finite q ∧ 0 ≤ q ∧ q ≤ 1

end Float64

/-! ## Package `contrib/go.mongodb.org/mongo-driver/mongo` -/

namespace mongo

/-- A `ddtrace.StartSpanOption`, known by its identity. -/
structure StartSpanOption where
  name : String
  deriving DecidableEq, Repr

/-- The configuration of the integration. -/
structure config where
  serviceName : String
  analyticsRate : Float64
  spanOpts : List StartSpanOption

/-- Option represents an option that can be passed to Dial. -/
abbrev Option := config → config

/-- WithAnalyticsRate sets the sampling rate for Trace Analytics events correlated to started
spans. -/
def WithAnalyticsRate (rate : Float64) : Option := fun cfg =>
  if rate.ge (.finite 0) && rate.le (.finite 1) then
    { cfg with analyticsRate := rate }
  else
    { cfg with analyticsRate := .NaN }

/-- WithSpanOptions defines a set of additional ddtrace.StartSpanOption to be added to spans
started by the integration. -/
def WithSpanOptions (opts : List StartSpanOption) : Option := fun cfg =>
  { cfg with spanOpts := cfg.spanOpts ++ opts }

end mongo

/-! ## Package `contrib/elastic/go-elasticsearch.v6` -/

namespace elastic

/-- An `http.RoundTripper`, known by its identity. -/
structure RoundTripper where
  name : String
  deriving DecidableEq, Repr

/-- The configuration of a client. -/
structure clientConfig where
  serviceName : String
  operationName : String
  transport : RoundTripper
  analyticsRate : Float64
  resourceNamer : String → String → String

/-- ClientOption represents an option that can be used when creating a client. -/
abbrev ClientOption := clientConfig → clientConfig

/-- WithAnalyticsRate sets the sampling rate for Trace Analytics events correlated to started
spans. -/
def WithAnalyticsRate (rate : Float64) : ClientOption := fun cfg =>
  if rate.ge (.finite 0) && rate.le (.finite 1) then
    { cfg with analyticsRate := rate }
  else
    { cfg with analyticsRate := .NaN }

end elastic

/-! ## Package `internal/telemetry/telemetrytest` -/

namespace telemetrytest

/-- A `telemetry.Namespace`: one of the three constants that `productChange` names, which Go
requires to be pairwise distinct as cases of one switch, or any other value. -/
inductive Namespace
  | NamespaceTracers
  | NamespaceProfilers
  | NamespaceASM
  | other (name : String)
  deriving DecidableEq, Repr

/-- A `telemetry.Configuration`, by name and value. -/
structure Configuration where
  Name : String
  Value : String
  deriving DecidableEq, Repr

/-- MockClient implements Client and is used for testing purposes. -/
structure MockClient where
  Started : Bool
  Configuration : List Configuration
  Integrations : List String
  ProfilerEnabled : Bool
  AsmEnabled : Bool
  deriving DecidableEq, Repr

/-- ProductChange signals that a certain product is enabled or disabled for the mock client;
`none` is the panic on an invalid namespace. -/
def MockClient.productChange (c : MockClient) (namespace_ : Namespace) (enabled : Bool) :
    Option MockClient :=
  match namespace_ with
  | .NamespaceASM => some { c with AsmEnabled := enabled }
  | .NamespaceProfilers => some { c with ProfilerEnabled := enabled }
  | .NamespaceTracers => some c
  | .other _ => none

/-- ProductStart starts and adds configuration data to the mock client; `none` is a panic. -/
def MockClient.ProductStart (c : MockClient) (namespace_ : Namespace)
    (configuration : List telemetrytest.Configuration) : Option MockClient :=
  let c1 := { c with Started := true }
  let c2 := { c1 with Configuration := c1.Configuration ++ configuration }
  match c2.productChange namespace_ true with
  | none => none
  | some c3 =>
    if namespace_ = .NamespaceTracers then c3.productChange .NamespaceASM true else some c3

/-- ProductStop signals a product has stopped and disables that product in the mock client;
it is a no-op for the tracer namespace. `none` is a panic. -/
def MockClient.ProductStop (c : MockClient) (namespace_ : Namespace) :
    Option MockClient :=
  if namespace_ = .NamespaceTracers then some c else c.productChange namespace_ false

end telemetrytest

namespace httpsec

/-! ## Lemmas on maps and lower-casing -/

theorem GoMap.get_erase {β : Type} (m : GoMap β) (k j : String) :
    (GoMap.erase m k).get j = if k = j then none else m.get j := by
  induction m with
  | nil => simp [GoMap.erase, GoMap.get]
  | cons e rest ih =>
    obtain ⟨i, v⟩ := e
    by_cases hik : i = k
    · subst hik
      simp only [GoMap.erase, if_true, ih]
      by_cases hij : i = j
      · simp [hij]
      · simp [GoMap.get, hij]
    · simp only [GoMap.erase, hik, if_false, GoMap.get, ih]
      by_cases hij : i = j
      · subst hij
        have hki : ¬ k = i := fun h => hik h.symm
        simp [hki]
      · simp [hij]

theorem GoMap.get_set {β : Type} (m : GoMap β) (k j : String) (v : β) :
    (GoMap.set m k v).get j = if k = j then some v else m.get j := by
  by_cases hkj : k = j
  · simp [GoMap.set, GoMap.get, hkj]
  · simp [GoMap.set, GoMap.get, hkj, GoMap.get_erase]

theorem GoMap.get_ne_none_of_mem_keys {β : Type} (m : GoMap β) (k : String)
    (hk : k ∈ m.keys) : m.get k ≠ none := by
  induction m with
  | nil => simp [GoMap.keys] at hk
  | cons e rest ih =>
    obtain ⟨i, v⟩ := e
    by_cases hik : i = k
    · simp [GoMap.get, hik]
    · have : k ∈ GoMap.keys rest := by
        simp only [GoMap.keys, List.map_cons, List.mem_cons] at hk
        rcases hk with h | h
        · exact absurd h.symm hik
        · exact h
      simpa [GoMap.get, hik] using ih this

theorem GoMap.mem_keys_of_get_ne_none {β : Type} (m : GoMap β) (k : String)
    (hk : m.get k ≠ none) : k ∈ m.keys := by
  induction m with
  | nil => simp [GoMap.get] at hk
  | cons e rest ih =>
    obtain ⟨i, v⟩ := e
    by_cases hik : i = k
    · simp [GoMap.keys, hik]
    · simp only [GoMap.get, hik, if_false] at hk
      have := ih hk
      simp only [GoMap.keys] at this ⊢
      exact List.mem_cons_of_mem _ this

theorem GoMap.get_of_mem_nodup {β : Type} (m : GoMap β) (k : String) (v : β)
    (hnd : m.keys.Nodup) (hmem : (k, v) ∈ m) : m.get k = some v := by
  induction m with
  | nil => simp at hmem
  | cons e rest ih =>
    obtain ⟨i, w⟩ := e
    simp only [GoMap.keys, List.map_cons, List.nodup_cons, List.mem_map, not_exists,
      not_and] at hnd
    rcases List.mem_cons.1 hmem with h | h
    · cases h
      simp [GoMap.get]
    · have hik : ¬ i = k := fun hik => hnd.1 (k, v) h hik.symm
      simpa [GoMap.get, hik] using ih hnd.2 h

theorem lowerRune_ascii (L : Lib) (c : Char) (h : c.toNat < 128) :
    lowerRune L c = if 65 ≤ c.toNat ∧ c.toNat ≤ 90 then Char.ofNat (c.toNat + 32) else c := by
  simp [lowerRune, h]

theorem ToLower_idem (L : Lib) (hidem : ∀ c, lowerRune L (lowerRune L c) = lowerRune L c)
    (s : String) : ToLower L (ToLower L s) = ToLower L s := by
  simp [ToLower, List.map_map, Function.comp_def, hidem]

theorem ToLower_host (L : Lib) : ToLower L "host" = "host" := by
  simp [ToLower, lowerRune]

theorem lastWithLower_append (L : Lib) (hdr : GoMap (List String)) (a : String × List String)
    (j : String) :
    lastWithLower L (hdr ++ [a]) j
      = if ToLower L a.1 = j then some a else lastWithLower L hdr j := by
  simp [lastWithLower, List.find?_cons]
  split <;> simp_all

theorem headerLoop_get_aux (L : Lib) (hdr acc : GoMap (List String)) (j : String) :
    (hdr.foldl (headerStep L) acc).get j
      = if j = "cookie" then acc.get j
        else match lastWithLower L hdr j with
          | some kv => some kv.2
          | none => acc.get j := by
  induction hdr using List.reverseRecOn with
  | nil => simp [lastWithLower]
  | append_singleton l a ih =>
    rw [List.foldl_append, lastWithLower_append]
    simp only [List.foldl_cons, List.foldl_nil, headerStep]
    by_cases hc : ToLower L a.1 = "cookie"
    · rw [if_pos hc, ih]
      by_cases hj : j = "cookie"
      · simp [hj]
      · have : ¬ ToLower L a.1 = j := by rw [hc]; exact fun h => hj h.symm
        simp [hj, this]
    · rw [if_neg hc, GoMap.get_set, ih]
      by_cases hj : j = "cookie"
      · subst hj
        simp [hc]
      · by_cases ha : ToLower L a.1 = j
        · simp [hj, ha]
        · simp [hj, ha]

theorem headerLoop_get (L : Lib) (hdr : GoMap (List String)) (j : String) :
    (headerLoop L hdr).get j
      = if j = "cookie" then none else (lastWithLower L hdr j).map Prod.snd := by
  rw [headerLoop, headerLoop_get_aux]
  by_cases hj : j = "cookie"
  · simp [hj, GoMap.get]
  · cases h : lastWithLower L hdr j <;> simp [hj, GoMap.get]

theorem lastWithLower_some (L : Lib) (hdr : GoMap (List String)) (j : String)
    (kv : String × List String) (h : lastWithLower L hdr j = some kv) :
    kv ∈ hdr ∧ ToLower L kv.1 = j := by
  unfold lastWithLower at h
  have h1 := List.mem_of_find?_eq_some h
  have h2 := List.find?_some h
  exact ⟨List.mem_reverse.1 h1, by simpa using h2⟩

theorem lastWithLower_ne_none (L : Lib) (hdr : GoMap (List String)) (k : String)
    (hk : k ∈ hdr.keys) : lastWithLower L hdr (ToLower L k) ≠ none := by
  unfold lastWithLower
  intro h
  rw [List.find?_eq_none] at h
  simp only [GoMap.keys, List.mem_map] at hk
  obtain ⟨e, he, rfl⟩ := hk
  exact h e (List.mem_reverse.2 he) (by simp)

theorem cookieValues_eq_nil (cs : List Cookie) (n : String) :
    cookieValues cs n = [] ↔ n ∉ cs.map Cookie.Name := by
  simp only [cookieValues, List.map_eq_nil_iff, List.filter_eq_nil_iff, List.mem_map,
    not_exists, not_and, decide_eq_true_eq]

theorem makeCookiesLoop_get_aux (cs : List Cookie) (acc : GoMap (List String)) (n : String) :
    (cs.foldl makeCookiesStep acc).get n
      = if cookieValues cs n = [] then acc.get n
        else some ((acc.get n).getD [] ++ cookieValues cs n) := by
  induction cs generalizing acc with
  | nil => simp [cookieValues]
  | cons c rest ih =>
    rw [List.foldl_cons, ih, makeCookiesStep, GoMap.get_set]
    by_cases hc : c.Name = n
    · subst hc
      by_cases hr : cookieValues rest c.Name = []
      · simp [cookieValues] at hr ⊢
      · simp [cookieValues] at hr ⊢
    · by_cases hr : cookieValues rest n = []
      · simp [cookieValues, hc] at hr ⊢
      · simp [cookieValues, hc] at hr ⊢

theorem ofNat_add_toNat (n : Nat) (h1 : 65 ≤ n) (h2 : n ≤ 90) :
    (Char.ofNat (n + 32)).toNat = n + 32 := by
  interval_cases n <;> rfl

theorem lowerRune_asciiLib_idem (cs : List Cookie) (c : Char) :
    lowerRune (asciiLib cs) (lowerRune (asciiLib cs) c) = lowerRune (asciiLib cs) c := by
  by_cases h : c.toNat < 128
  · by_cases hu : 65 ≤ c.toNat ∧ c.toNat ≤ 90
    · have hn := ofNat_add_toNat c.toNat hu.1 hu.2
      have h3 : (Char.ofNat (c.toNat + 32)).toNat < 128 := by omega
      have h4 : ¬ (65 ≤ (Char.ofNat (c.toNat + 32)).toNat
          ∧ (Char.ofNat (c.toNat + 32)).toNat ≤ 90) := by omega
      simp only [lowerRune, h, hu, if_true, and_self, h3, h4, if_false]
    · simp [lowerRune, h, hu]
  · simp [lowerRune, h, asciiLib]

/-! ## Claims on `MakeHandlerOperationArgs` and `makeCookies` -/

/-- C1: the `Headers` map returned by `MakeHandlerOperationArgs` has no key whose lower-case
form is `cookie`, whatever the casing of the keys of `r.Header`. The case table is assumed
idempotent, as `unicode.ToLower` is. -/
theorem MakeHandlerOperationArgs_headers_no_cookie (L : Lib)
    (hidem : ∀ c, lowerRune L (lowerRune L c) = lowerRune L c)
    (r : Request) (clientIP : Addr) (pathParams : GoMap String) (k : String)
    (hk : ToLower L k = "cookie") :
    (MakeHandlerOperationArgs L r clientIP pathParams).Headers.get k = none
      ∧ k ∉ (MakeHandlerOperationArgs L r clientIP pathParams).Headers.keys := by
  have hget : (MakeHandlerOperationArgs L r clientIP pathParams).Headers.get k = none := by
    simp only [MakeHandlerOperationArgs]
    rw [GoMap.get_set, headerLoop_get]
    by_cases hh : "host" = k
    · rw [← hh, ToLower_host] at hk
      exact absurd hk (by decide)
    · rw [if_neg hh]
      by_cases hc : k = "cookie"
      · simp [hc]
      · rw [if_neg hc]
        cases hl : lastWithLower L r.Header k with
        | none => rfl
        | some kv =>
          obtain ⟨_, hkv⟩ := lastWithLower_some L r.Header k kv hl
          have : ToLower L k = k := by rw [← hkv, ToLower_idem L hidem]
          exact absurd (this.symm.trans hk) hc
  exact ⟨hget, fun hmem => GoMap.get_ne_none_of_mem_keys _ k hmem hget⟩

/-- Witness of C1: a header map carrying `COOKIE` and `Cookie` yields no `cookie` key. -/
theorem MakeHandlerOperationArgs_headers_no_cookie_witness :
    ToLower (asciiLib []) "cookie" = "cookie"
      ∧ (MakeHandlerOperationArgs (asciiLib [])
          ⟨"/", [("COOKIE", ["a=1"]), ("Cookie", ["b=2"]), ("X-Foo", ["bar"])],
            "example.com", ⟨""⟩⟩ "1.2.3.4" []).Headers.get "cookie" = none :=
  ⟨by decide,
   (MakeHandlerOperationArgs_headers_no_cookie (asciiLib []) (lowerRune_asciiLib_idem [])
      ⟨"/", [("COOKIE", ["a=1"]), ("Cookie", ["b=2"]), ("X-Foo", ["bar"])],
        "example.com", ⟨""⟩⟩ "1.2.3.4" [] "cookie" (by decide)).1⟩

/-- C2: `Headers["host"]` is exactly the one-element list `[r.Host]`, whatever `r.Header`
carries, a `Host` entry in any casing included. -/
theorem MakeHandlerOperationArgs_headers_host (L : Lib) (r : Request) (clientIP : Addr)
    (pathParams : GoMap String) :
    (MakeHandlerOperationArgs L r clientIP pathParams).Headers.get "host" = some [r.Host] := by
  simp [MakeHandlerOperationArgs, GoMap.get_set]

/-- C3 fails as stated: when `r.Header` carries the keys `X-Foo` and `x-foo`, both lower to
`x-foo` and the entry visited last wins, so in either visiting order one of the two keys does
not find its own value list under `Headers["x-foo"]`. -/
theorem MakeHandlerOperationArgs_headers_value_counterexample :
    ("X-Foo" ∈ GoMap.keys [("X-Foo", ["a"]), ("x-foo", ["b"])]
      ∧ ToLower (asciiLib []) "X-Foo" ≠ "cookie" ∧ ToLower (asciiLib []) "X-Foo" ≠ "host"
      ∧ (MakeHandlerOperationArgs (asciiLib [])
          ⟨"/", [("X-Foo", ["a"]), ("x-foo", ["b"])], "example.com", ⟨""⟩⟩ "1.2.3.4" []).Headers.get
            (ToLower (asciiLib []) "X-Foo") = some ["b"]
      ∧ GoMap.get [("X-Foo", ["a"]), ("x-foo", ["b"])] "X-Foo" = some ["a"])
    ∧ ("x-foo" ∈ GoMap.keys [("x-foo", ["b"]), ("X-Foo", ["a"])]
      ∧ ToLower (asciiLib []) "x-foo" ≠ "cookie" ∧ ToLower (asciiLib []) "x-foo" ≠ "host"
      ∧ (MakeHandlerOperationArgs (asciiLib [])
          ⟨"/", [("x-foo", ["b"]), ("X-Foo", ["a"])], "example.com", ⟨""⟩⟩ "1.2.3.4" []).Headers.get
            (ToLower (asciiLib []) "x-foo") = some ["a"]
      ∧ GoMap.get [("x-foo", ["b"]), ("X-Foo", ["a"])] "x-foo" = some ["b"]) := by
  decide

/-- C3, amended: for every key `k` of `r.Header` whose lower-case form is neither `cookie` nor
`host`, `Headers` has the key `lower(k)`, and its value is the value list of a key of
`r.Header` with the same lower-case form as `k`; it is `r.Header[k]` when `k` is the only
such key. Every key of `Headers` is lower-case. -/
theorem MakeHandlerOperationArgs_headers_value (L : Lib)
    (hidem : ∀ c, lowerRune L (lowerRune L c) = lowerRune L c)
    (r : Request) (clientIP : Addr) (pathParams : GoMap String) (k : String)
    (hnd : r.Header.keys.Nodup) (hk : k ∈ r.Header.keys)
    (hc : ToLower L k ≠ "cookie") (hh : ToLower L k ≠ "host") :
    (∃ k2 ∈ r.Header.keys, ToLower L k2 = ToLower L k
        ∧ r.Header.get k2 ≠ none
        ∧ (MakeHandlerOperationArgs L r clientIP pathParams).Headers.get (ToLower L k)
            = r.Header.get k2)
      ∧ ((∀ k2 ∈ r.Header.keys, ToLower L k2 = ToLower L k → k2 = k) →
          (MakeHandlerOperationArgs L r clientIP pathParams).Headers.get (ToLower L k)
            = r.Header.get k)
      ∧ ∀ j, (MakeHandlerOperationArgs L r clientIP pathParams).Headers.get j ≠ none →
          ToLower L j = j := by
  have hval : ∃ kv ∈ r.Header, ToLower L kv.1 = ToLower L k
      ∧ (MakeHandlerOperationArgs L r clientIP pathParams).Headers.get (ToLower L k)
          = some kv.2 := by
    simp only [MakeHandlerOperationArgs]
    rw [GoMap.get_set, headerLoop_get, if_neg (fun h => hh h.symm), if_neg hc]
    cases hl : lastWithLower L r.Header (ToLower L k) with
    | none => exact absurd hl (lastWithLower_ne_none L r.Header k hk)
    | some kv =>
      obtain ⟨hmem, hkv⟩ := lastWithLower_some L r.Header _ kv hl
      exact ⟨kv, hmem, hkv, rfl⟩
  obtain ⟨kv, hmem, hkv, hget⟩ := hval
  have hkvget : r.Header.get kv.1 = some kv.2 := GoMap.get_of_mem_nodup _ _ _ hnd hmem
  have hkvkey : kv.1 ∈ r.Header.keys := List.mem_map.2 ⟨kv, hmem, rfl⟩
  refine ⟨⟨kv.1, hkvkey, hkv, by simp [hkvget], by rw [hget, hkvget]⟩, ?_, ?_⟩
  · intro huniq
    rw [hget, ← huniq kv.1 hkvkey hkv, hkvget]
  · intro j hj
    simp only [MakeHandlerOperationArgs] at hj
    rw [GoMap.get_set] at hj
    by_cases hjh : "host" = j
    · rw [← hjh, ToLower_host]
    · rw [if_neg hjh, headerLoop_get] at hj
      by_cases hjc : j = "cookie"
      · simp [hjc] at hj
      · rw [if_neg hjc] at hj
        cases hl : lastWithLower L r.Header j with
        | none => simp [hl] at hj
        | some e =>
          obtain ⟨_, he⟩ := lastWithLower_some L r.Header j e hl
          rw [← he, ToLower_idem L hidem]

/-- Witness of C3 amended: `X-Foo: bar` yields `Headers["x-foo"] = ["bar"]`. -/
theorem MakeHandlerOperationArgs_headers_value_witness :
    ToLower (asciiLib []) "X-Foo" = "x-foo"
      ∧ (MakeHandlerOperationArgs (asciiLib [])
          ⟨"/", [("Cookie", ["a=1"]), ("X-Foo", ["bar"])], "example.com", ⟨""⟩⟩
            "1.2.3.4" []).Headers.get (ToLower (asciiLib []) "X-Foo")
          = GoMap.get [("Cookie", ["a=1"]), ("X-Foo", ["bar"])] "X-Foo" :=
  ⟨by decide,
   (MakeHandlerOperationArgs_headers_value (asciiLib []) (lowerRune_asciiLib_idem [])
      ⟨"/", [("Cookie", ["a=1"]), ("X-Foo", ["bar"])], "example.com", ⟨""⟩⟩ "1.2.3.4" []
      "X-Foo" (by decide) (by decide) (by decide) (by decide)).2.1 (by decide)⟩

/-- C4: `makeCookies` returns nil when no cookie is parsed from the request; otherwise it
returns a map whose keys are exactly the names of the parsed cookies, each name mapped to
the values of the cookies of that name, in their order of occurrence, duplicates kept. -/
theorem makeCookies_spec (L : Lib) (r : Request) :
    match makeCookies L r with
    | none => L.Cookies r = []
    | some m =>
      L.Cookies r ≠ []
        ∧ (∀ n, n ∈ m.keys ↔ n ∈ (L.Cookies r).map Cookie.Name)
        ∧ ∀ n, m.get n
            = if n ∈ (L.Cookies r).map Cookie.Name then some (cookieValues (L.Cookies r) n)
              else none := by
  have hget : ∀ n, (makeCookiesLoop (L.Cookies r)).get n
      = if n ∈ (L.Cookies r).map Cookie.Name then some (cookieValues (L.Cookies r) n)
        else none := by
    intro n
    rw [makeCookiesLoop, makeCookiesLoop_get_aux]
    by_cases hn : n ∈ (L.Cookies r).map Cookie.Name
    · rw [if_neg (fun h => (cookieValues_eq_nil _ n).1 h hn), if_pos hn]
      simp [GoMap.get]
    · rw [if_pos ((cookieValues_eq_nil _ n).2 hn), if_neg hn]
      simp [GoMap.get]
  by_cases hcs : L.Cookies r = []
  · simp [makeCookies, hcs]
  · have hlen : ¬ (L.Cookies r).length = 0 := fun h => hcs (List.length_eq_zero.1 h)
    simp only [makeCookies, hlen, if_false]
    refine ⟨hcs, fun n => ⟨fun hmem => ?_, fun hmem => ?_⟩, hget⟩
    · have h1 := GoMap.get_ne_none_of_mem_keys _ n hmem
      rw [hget] at h1
      by_contra hn
      simp [hn] at h1
    · apply GoMap.mem_keys_of_get_ne_none
      rw [hget, if_pos hmem]
      simp

/-! ## Lemmas on actions and on the dispatcher -/

theorem Actions_foldl_AddAction (op : OpId) (as : List Action) (w : World) :
    Operation.Actions (as.foldl (fun w a => Operation.AddAction w op a) w) op
      = Operation.Actions w op ++ as := by
  induction as generalizing w with
  | nil => simp
  | cons a rest ih =>
    rw [List.foldl_cons, ih]
    simp [Operation.Actions, Operation.AddAction]

theorem log_foldl_AddAction (op : OpId) (as : List Action) (w : World) :
    (as.foldl (fun w a => Operation.AddAction w op a) w).log = w.log := by
  induction as generalizing w with
  | nil => simp
  | cons a rest ih =>
    rw [List.foldl_cons, ih]
    simp [Operation.AddAction]

theorem applyActionsLoop_block (op : OpId) (pre post : List Action) (a : BlockRequestAction)
    (hpre : ∀ x ∈ pre, x.isBlock = false) (w : World) :
    (applyActionsLoop w op (pre ++ Action.block a :: post)).2 = some a.handler
      ∧ (applyActionsLoop w op (pre ++ Action.block a :: post)).1.log
          = w.log ++ pre.map ignoredActionEntry := by
  induction pre generalizing w with
  | nil => simp [applyActionsLoop, Operation.AddTag]
  | cons x rest ih =>
    have hx := hpre x (List.mem_cons_self _ _)
    have hrest : ∀ y ∈ rest, y.isBlock = false :=
      fun y hy => hpre y (List.mem_cons_of_mem _ hy)
    cases x with
    | block b => simp [Action.isBlock] at hx
    | other t =>
      have e : applyActionsLoop w op (Action.other t :: rest ++ Action.block a :: post)
          = applyActionsLoop
              (log.Error w ("appsec: ignoring security action: unexpected action type " ++ t))
              op (rest ++ Action.block a :: post) := rfl
      rw [e]
      obtain ⟨h1, h2⟩ := ih hrest (log.Error w _)
      refine ⟨h1, ?_⟩
      rw [h2]
      simp [log.Error, ignoredActionEntry, Action.typeName]

theorem applyActionsLoop_no_block (op : OpId) (as : List Action)
    (has : ∀ x ∈ as, x.isBlock = false) (w : World) :
    (applyActionsLoop w op as).2 = none
      ∧ (applyActionsLoop w op as).1.log = w.log ++ as.map ignoredActionEntry
      ∧ (applyActionsLoop w op as).1.store = w.store := by
  induction as generalizing w with
  | nil => simp [applyActionsLoop]
  | cons x rest ih =>
    have hx := has x (List.mem_cons_self _ _)
    have hrest : ∀ y ∈ rest, y.isBlock = false :=
      fun y hy => has y (List.mem_cons_of_mem _ hy)
    cases x with
    | block b => simp [Action.isBlock] at hx
    | other t =>
      simp only [applyActionsLoop]
      obtain ⟨h1, h2, h3⟩ := ih hrest (log.Error w _)
      refine ⟨h1, ?_, ?_⟩
      · rw [h2]
        simp [log.Error, ignoredActionEntry, Action.typeName]
      · rw [h3]
        simp [log.Error]

theorem emitEvent_isSome (ls : List EventListener) (op : dyngo.Operation) (v : Payload)
    (hd : dyngo.Dispatchable op v = true) (s : Store) :
    ∃ s1, dyngo.emitEvent ls op v s = some s1 := by
  induction ls generalizing s with
  | nil => exact ⟨s, rfl⟩
  | cons l rest ih =>
    by_cases ht : l.ListenedType = v.TypeOf
    · cases l <;> cases op <;> cases v <;>
        simp_all [dyngo.emitEvent, EventListener.ListenedType, Payload.TypeOf,
          EventListener.Call, dyngo.Dispatchable]
    · simp only [dyngo.emitEvent, ht, if_false]
      exact ih s

theorem scopesFrom_eq (ops : List dyngo.Node) (fuel : Nat) (id : OpId) :
    ∃ ids : List OpId, dyngo.scopesFrom ops fuel id = ids.map dyngo.Scope.op ++ [.root] := by
  induction fuel generalizing id with
  | zero => exact ⟨[], rfl⟩
  | succ n ih =>
    simp only [dyngo.scopesFrom]
    cases h : ops[id]? with
    | none => exact ⟨[id], rfl⟩
    | some node =>
      obtain ⟨parent, fin⟩ := node
      cases parent with
      | none => exact ⟨[id], rfl⟩
      | some p =>
        obtain ⟨ids, hids⟩ := ih p
        exact ⟨id :: ids, by simp [hids]⟩

theorem reached_no_listener (w : World) (ph : dyngo.Phase) (op : OpId)
    (h : w.listeners = []) : dyngo.reached w ph op = [] := by
  simp [dyngo.reached, h]

theorem reached_root_listener (w : World) (op : OpId) (l : EventListener)
    (h : w.listeners = [(.root, l)]) : dyngo.reached w l.phase op = [l] := by
  obtain ⟨ids, hids⟩ := scopesFrom_eq w.ops w.ops.length op
  simp only [dyngo.reached, h, hids, List.flatMap_append, List.flatMap_cons, List.flatMap_nil]
  have : List.flatMap (List.map dyngo.Scope.op ids) (fun sc =>
      (List.filter (fun e : dyngo.Scope × EventListener => e.1 = sc ∧ e.2.phase = l.phase)
        [(dyngo.Scope.root, l)]).map Prod.snd) = [] := by
    induction ids with
    | nil => rfl
    | cons i rest ih => simp [List.flatMap_cons, ih]
  rw [this]
  simp

/-! ## Claims on `applyActions` -/

/-- C5: after `applyActions(op)` returns, `op.Actions()` is empty, whatever the pending
actions were and whichever branch was taken. -/
theorem applyActions_clears_actions (w : World) (op : OpId) :
    Operation.Actions (applyActions w op).1 op = [] := by
  simp [applyActions, Operation.ClearActions, Operation.Actions]

/-- C6: when the pending actions of `op` were added with `AddAction` in the order `as`,
`applyActions(op)` returns the handler of the first block-request action of `as`, having
logged one error for each action of another kind before it, and returns nil, having logged
one error per action, when `as` holds no block-request action. -/
theorem applyActions_first_block (w : World) (op : OpId) (as : List Action) :
    (∀ pre a post, as = pre ++ Action.block a :: post → (∀ x ∈ pre, x.isBlock = false) →
        (applyActions (addActions w op as) op).2 = some a.handler
          ∧ (applyActions (addActions w op as) op).1.log = w.log ++ pre.map ignoredActionEntry)
      ∧ ((∀ x ∈ as, x.isBlock = false) →
        (applyActions (addActions w op as) op).2 = none
          ∧ (applyActions (addActions w op as) op).1.log
              = w.log ++ as.map ignoredActionEntry) := by
  have hact : Operation.Actions (addActions w op as) op = as := by
    rw [addActions, Actions_foldl_AddAction]
    simp [Operation.Actions, Operation.ClearActions]
  have hlog : (addActions w op as).log = w.log := by
    rw [addActions, log_foldl_AddAction]
    simp [Operation.ClearActions]
  refine ⟨fun pre a post has hpre => ?_, fun has => ?_⟩
  · obtain ⟨h1, h2⟩ := applyActionsLoop_block op pre post a hpre (addActions w op as)
    simp only [applyActions, hact]
    rw [← has] at h1 h2
    exact ⟨h1, by simp [Operation.ClearActions, h2, hlog]⟩
  · obtain ⟨h1, h2, _⟩ := applyActionsLoop_no_block op as has (addActions w op as)
    simp only [applyActions, hact]
    exact ⟨h1, by simp [Operation.ClearActions, h2, hlog]⟩

/-- Witness of C6: an unknown action, then two block actions: the first block handler is
returned. -/
theorem applyActions_first_block_witness :
    (applyActions (addActions World.initial 0
        [.other "int", .block ⟨⟨"b1"⟩⟩, .block ⟨⟨"b2"⟩⟩]) 0).2 = some ⟨"b1"⟩ :=
  ((applyActions_first_block World.initial 0
      [.other "int", .block ⟨⟨"b1"⟩⟩, .block ⟨⟨"b2"⟩⟩]).1
    [.other "int"] ⟨⟨"b1"⟩⟩ [.block ⟨⟨"b2"⟩⟩] rfl (by decide)).1

/-! ## Claims on `MonitorParsedBody`, `StartOperation` and `Finish` -/

/-- C7: when the context holds no HTTP operation under the instrumentation key (no value, a
value of another type, or a nil pointer), `MonitorParsedBody` returns without a panic, creates
no operation, dispatches no event, leaves listeners and operation state alone, and logs
exactly one error. -/
theorem MonitorParsedBody_without_operation (w : World) (ctx : Context) (body : Body)
    (h : ∀ p, ctx.Value .instrumentation ≠ some (.httpOperation (some p))) :
    ∃ w1, MonitorParsedBody w ctx body = some w1
      ∧ w1.ops = w.ops ∧ w1.trace = w.trace ∧ w1.store = w.store
      ∧ w1.listeners = w.listeners
      ∧ w1.log = w.log ++ [⟨.error, monitorParsedBodyError⟩] := by
  have hnone : fromContext ctx = none := by
    unfold fromContext
    cases hv : ctx.Value .instrumentation with
    | none => rfl
    | some v =>
      cases v with
      | httpOperation op =>
        cases op with
        | none => rfl
        | some p => exact absurd hv (h p)
      | sdkBodyOperation op => rfl
      | other x => rfl
  exact ⟨log.Error w monitorParsedBodyError, by simp [MonitorParsedBody, hnone],
    rfl, rfl, rfl, rfl, rfl⟩

/-- Witness of C7: a context whose instrumentation key holds a value that is not an
operation. -/
theorem MonitorParsedBody_without_operation_witness :
    ∃ w1, MonitorParsedBody World.initial
        (.WithValue .background .instrumentation (.other "x")) "body" = some w1
      ∧ w1.ops = [] ∧ w1.trace = [] ∧ w1.store = World.initial.store
      ∧ w1.listeners = World.initial.listeners
      ∧ w1.log = [] ++ [⟨.error, monitorParsedBodyError⟩] :=
  MonitorParsedBody_without_operation World.initial
    (.WithValue .background .instrumentation (.other "x")) "body"
    (fun p => by simp [Context.Value])

/-- C8: when the context holds the HTTP operation `p`, `MonitorParsedBody` creates exactly
one operation, an SDK body operation whose parent is `p`, and dispatches on it exactly one
start event with payload `SDKBodyOperationArgs{Body: body}` and then exactly one finish event
with payload `SDKBodyOperationRes{}`; it logs nothing and does not panic. -/
theorem MonitorParsedBody_with_operation (w : World) (ctx : Context) (body : Body) (p : OpId)
    (h : ctx.Value .instrumentation = some (.httpOperation (some p))) :
    ∃ w1, MonitorParsedBody w ctx body = some w1
      ∧ w1.ops = w.ops ++ [⟨some p, true⟩]
      ∧ w1.trace = w.trace ++
          [⟨.start, .sdkBody w.ops.length, .sdkBodyOperationArgs ⟨body⟩⟩,
           ⟨.finish, .sdkBody w.ops.length, .sdkBodyOperationRes {}⟩]
      ∧ w1.log = w.log ∧ w1.listeners = w.listeners := by
  have hctx : fromContext ctx = some p := by simp [fromContext, h]
  obtain ⟨s1, hs1⟩ := emitEvent_isSome
    (dyngo.reached { w with ops := w.ops ++ [⟨some p, false⟩] } .start w.ops.length)
    (.sdkBody w.ops.length) (.sdkBodyOperationArgs ⟨body⟩) rfl w.store
  obtain ⟨s2, hs2⟩ := emitEvent_isSome
    (dyngo.reached
      { w with
        ops := w.ops ++ [⟨some p, false⟩]
        store := s1
        trace := w.trace ++ [⟨.start, .sdkBody w.ops.length, .sdkBodyOperationArgs ⟨body⟩⟩] }
      .finish w.ops.length)
    (.sdkBody w.ops.length) (.sdkBodyOperationRes {}) rfl s1
  refine ⟨{ w with
      ops := w.ops ++ [⟨some p, true⟩]
      store := s2
      trace := w.trace ++
        [⟨.start, .sdkBody w.ops.length, .sdkBodyOperationArgs ⟨body⟩⟩,
         ⟨.finish, .sdkBody w.ops.length, .sdkBodyOperationRes {}⟩] }, ?_, rfl, rfl, rfl, rfl⟩
  simp only [MonitorParsedBody, hctx, StartSDKBodyOperation, dyngo.NewOperation,
    dyngo.StartOperation, dyngo.Operation.id, hs1, SDKBodyOperation.Finish,
    dyngo.FinishOperation, List.getElem?_concat_length, hs2]
  simp

/-- Witness of C8: a world with one HTTP operation, held by the context. -/
theorem MonitorParsedBody_with_operation_witness :
    ∃ w1, MonitorParsedBody (dyngo.NewOperation World.initial none).1
        (.WithValue .background .instrumentation (.httpOperation (some 0))) "body" = some w1
      ∧ w1.ops = (dyngo.NewOperation World.initial none).1.ops ++ [⟨some 0, true⟩]
      ∧ w1.trace = (dyngo.NewOperation World.initial none).1.trace ++
          [⟨.start, .sdkBody (dyngo.NewOperation World.initial none).1.ops.length,
              .sdkBodyOperationArgs ⟨"body"⟩⟩,
           ⟨.finish, .sdkBody (dyngo.NewOperation World.initial none).1.ops.length,
              .sdkBodyOperationRes {}⟩]
      ∧ w1.log = (dyngo.NewOperation World.initial none).1.log
      ∧ w1.listeners = (dyngo.NewOperation World.initial none).1.listeners :=
  MonitorParsedBody_with_operation (dyngo.NewOperation World.initial none).1
    (.WithValue .background .instrumentation (.httpOperation (some 0))) "body" 0 rfl

/-- C9: `StartOperation(ctx, args)` returns a context from which `fromContext` reads the
returned operation; the operation is new and was created with a nil parent, whatever `ctx`
holds; the operations that existed keep their node, `ctx` itself is the parent of the new
context and every other key reads the same in both; exactly one start event, with payload
`args`, is dispatched on the new operation. -/
theorem StartOperation_spec (w : World) (ctx : Context) (args : HandlerOperationArgs) :
    ∃ w1 ctx1 op, StartOperation w ctx args = some (w1, ctx1, op)
      ∧ fromContext ctx1 = some op
      ∧ op = w.ops.length
      ∧ w1.ops = w.ops ++ [⟨none, false⟩]
      ∧ w1.ops[op]? = some ⟨none, false⟩
      ∧ (∀ q, q < w.ops.length → w1.ops[q]? = w.ops[q]?)
      ∧ ctx1 = .WithValue ctx .instrumentation (.httpOperation (some op))
      ∧ (∀ k, k ≠ ContextKey.instrumentation → ctx1.Value k = ctx.Value k)
      ∧ w1.trace = w.trace ++ [⟨.start, .http op, .handlerOperationArgs args⟩] := by
  obtain ⟨s1, hs1⟩ := emitEvent_isSome
    (dyngo.reached
      { w with
        ops := w.ops ++ [⟨none, false⟩]
        store := Function.update w.store w.ops.length ⟨[], [], []⟩ }
      .start w.ops.length)
    (.http w.ops.length) (.handlerOperationArgs args) rfl
    (Function.update w.store w.ops.length ⟨[], [], []⟩)
  refine ⟨{ w with
      ops := w.ops ++ [⟨none, false⟩]
      store := s1
      trace := w.trace ++ [⟨.start, .http w.ops.length, .handlerOperationArgs args⟩] },
    .WithValue ctx .instrumentation (.httpOperation (some w.ops.length)), w.ops.length,
    ?_, ?_, rfl, rfl, ?_, ?_, rfl, ?_, rfl⟩
  · simp only [StartOperation, dyngo.NewOperation, dyngo.StartOperation, dyngo.Operation.id,
      hs1]
  · simp [fromContext, Context.Value]
  · simp
  · intro q hq
    simp [List.getElem?_append_left hq]
  · intro k hk
    simp [Context.Value, hk.symm]

/-- C10: on an operation that has not finished yet, `Finish(res)` dispatches the finish event
with payload `res` and only then reads the events: the returned list is the event list of the
operation in the store that the finish listeners leave. A finish listener registered alone on
the root therefore has its additions returned, and without any listener the returned list
is the list accumulated before the call, empty when nothing was added. -/
theorem Operation_Finish_spec (w : World) (op : OpId) (res : HandlerOperationRes)
    (parent : Option OpId) (hop : w.ops[op]? = some ⟨parent, false⟩) :
    ∃ s1, dyngo.emitEvent (dyngo.reached w .finish op) (.http op) (.handlerOperationRes res)
          w.store = some s1
      ∧ Operation.Finish w op res
          = some ({ w with
                    ops := w.ops.set op ⟨parent, true⟩
                    store := s1
                    trace := w.trace ++ [⟨.finish, .http op, .handlerOperationRes res⟩] },
                  (s1 op).events)
      ∧ (∀ f, w.listeners = [(.root, .OnHandlerOperationFinish f)] → s1 = f op res w.store)
      ∧ (w.listeners = [] → s1 = w.store)
      ∧ (w.listeners = [] → (w.store op).events = [] → (s1 op).events = []) := by
  obtain ⟨s1, hs1⟩ := emitEvent_isSome (dyngo.reached w .finish op) (.http op)
    (.handlerOperationRes res) rfl w.store
  have hnone : w.listeners = [] → s1 = w.store := by
    intro hl
    rw [reached_no_listener w _ op hl] at hs1
    simp only [dyngo.emitEvent, Option.some.injEq] at hs1
    exact hs1.symm
  refine ⟨s1, hs1, ?_, ?_, hnone, ?_⟩
  · simp only [Operation.Finish, dyngo.FinishOperation, dyngo.Operation.id, hop, hs1,
      Operation.Events]
  · intro f hl
    have hr := reached_root_listener w op (.OnHandlerOperationFinish f) hl
    simp only [EventListener.phase] at hr
    rw [hr] at hs1
    simp only [dyngo.emitEvent, EventListener.ListenedType, Payload.TypeOf, if_true,
      EventListener.Call, Option.some.injEq] at hs1
    exact hs1.symm
  · intro hl hev
    rw [hnone hl, hev]

/-- Witness of C10: with a finish listener on the root that adds the event `e1`, `Finish`
on a fresh operation returns `[e1]`; with no listener it returns the empty list. -/
theorem Operation_Finish_spec_witness :
    (∃ w2, Operation.Finish
        (dyngo.NewOperation (dyngo.On World.initial .root (addEventOnFinish "e1")) none).1
        0 ⟨200⟩ = some (w2, ["e1"]))
      ∧ (∃ w2, Operation.Finish (dyngo.NewOperation World.initial none).1 0 ⟨200⟩
          = some (w2, [])) := by
  constructor
  · obtain ⟨s1, _, hfin, hroot, _, _⟩ := Operation_Finish_spec
      (dyngo.NewOperation (dyngo.On World.initial .root (addEventOnFinish "e1")) none).1
      0 ⟨200⟩ none rfl
    have hs := hroot _ rfl
    rw [hfin, hs]
    exact ⟨_, rfl⟩
  · obtain ⟨s1, _, hfin, _, _, hempty⟩ := Operation_Finish_spec
      (dyngo.NewOperation World.initial none).1 0 ⟨200⟩ none rfl
    rw [hfin, hempty rfl rfl]
    exact ⟨_, rfl⟩

end httpsec

/-! ## Claims on the mock telemetry client -/

namespace telemetrytest

/-- C15: `ProductStop(NamespaceTracers)` leaves every field of the mock client unchanged;
`ProductStop(NamespaceASM)` sets only `AsmEnabled` to false and
`ProductStop(NamespaceProfilers)` sets only `ProfilerEnabled` to false. -/
theorem ProductStop_frame (c : MockClient) :
    c.ProductStop .NamespaceTracers = some c
      ∧ c.ProductStop .NamespaceASM
          = some ⟨c.Started, c.Configuration, c.Integrations, c.ProfilerEnabled, false⟩
      ∧ c.ProductStop .NamespaceProfilers
          = some ⟨c.Started, c.Configuration, c.Integrations, false, c.AsmEnabled⟩ := by
  refine ⟨?_, ?_, ?_⟩ <;> simp [MockClient.ProductStop, MockClient.productChange]

/-- C16: for each of the namespaces tracers, ASM and profilers, `ProductStart(namespace, cfg)`
sets `Started` to true and `Configuration` to the old list followed by `cfg`, and leaves
`Integrations` unchanged; with ASM it sets `AsmEnabled` to true, with profilers it sets
`ProfilerEnabled` to true, and with tracers it sets `AsmEnabled` to true and leaves
`ProfilerEnabled` unchanged. -/
theorem ProductStart_spec (c : MockClient) (cfg : List Configuration) :
    c.ProductStart .NamespaceTracers cfg
        = some ⟨true, c.Configuration ++ cfg, c.Integrations, c.ProfilerEnabled, true⟩
      ∧ c.ProductStart .NamespaceASM cfg
          = some ⟨true, c.Configuration ++ cfg, c.Integrations, c.ProfilerEnabled, true⟩
      ∧ c.ProductStart .NamespaceProfilers cfg
          = some ⟨true, c.Configuration ++ cfg, c.Integrations, true, c.AsmEnabled⟩ := by
  refine ⟨?_, ?_, ?_⟩ <;> simp [MockClient.ProductStart, MockClient.productChange]

end telemetrytest

/-! ## Claims on the options of the mongo and elastic integrations -/

theorem Float64.inUnitInterval_iff (rate : Float64) :
    (rate.ge (.finite 0) && rate.le (.finite 1)) = true ↔ rate.InUnitInterval := by
  cases rate with
  | NaN => simp [Float64.ge, Float64.le, Float64.InUnitInterval]
  | Inf negative => cases negative <;> simp [Float64.ge, Float64.le, Float64.InUnitInterval]
  | finite q => simp [Float64.ge, Float64.le, Float64.InUnitInterval]

/-- C17: for the mongo `config` and the elastic `clientConfig`, `WithAnalyticsRate(rate)` sets
`analyticsRate` to `rate` when `0 <= rate <= 1` and to NaN otherwise (a NaN, an infinity, a
negative rate or a rate above 1), and changes no other field. -/
theorem WithAnalyticsRate_spec (rate : Float64) (m : mongo.config)
    (e : elastic.clientConfig) :
    (rate.InUnitInterval →
        mongo.WithAnalyticsRate rate m = ⟨m.serviceName, rate, m.spanOpts⟩
          ∧ elastic.WithAnalyticsRate rate e
              = ⟨e.serviceName, e.operationName, e.transport, rate, e.resourceNamer⟩)
      ∧ (¬ rate.InUnitInterval →
        mongo.WithAnalyticsRate rate m = ⟨m.serviceName, .NaN, m.spanOpts⟩
          ∧ elastic.WithAnalyticsRate rate e
              = ⟨e.serviceName, e.operationName, e.transport, .NaN, e.resourceNamer⟩) := by
  constructor
  · intro h
    have hb := (Float64.inUnitInterval_iff rate).2 h
    simp [mongo.WithAnalyticsRate, elastic.WithAnalyticsRate, hb]
  · intro h
    have hb : ¬ (rate.ge (.finite 0) && rate.le (.finite 1)) = true :=
      fun hb => h ((Float64.inUnitInterval_iff rate).1 hb)
    simp [mongo.WithAnalyticsRate, elastic.WithAnalyticsRate, hb]

/-- Witness of C17: `WithAnalyticsRate(0.3)` yields 0.3, and a rate of 1.5, an infinity and a
NaN yield NaN. -/
theorem WithAnalyticsRate_spec_witness :
    (mongo.WithAnalyticsRate (.finite (3 / 10)) ⟨"mongo", .NaN, []⟩).analyticsRate
        = .finite (3 / 10)
      ∧ (mongo.WithAnalyticsRate (.finite (3 / 2)) ⟨"mongo", .finite 1, []⟩).analyticsRate
          = .NaN
      ∧ (mongo.WithAnalyticsRate (.Inf false) ⟨"mongo", .finite 1, []⟩).analyticsRate = .NaN
      ∧ (mongo.WithAnalyticsRate .NaN ⟨"mongo", .finite 1, []⟩).analyticsRate = .NaN := by
  refine ⟨?_, ?_, ?_, ?_⟩
  · rw [((WithAnalyticsRate_spec (.finite (3 / 10)) ⟨"mongo", .NaN, []⟩
      ⟨"", "", ⟨""⟩, .NaN, fun _ _ => ""⟩).1 ⟨3 / 10, rfl, by norm_num, by norm_num⟩).1]
  · rw [((WithAnalyticsRate_spec (.finite (3 / 2)) ⟨"mongo", .finite 1, []⟩
      ⟨"", "", ⟨""⟩, .NaN, fun _ _ => ""⟩).2 (by
        rintro ⟨q, hq, _, h1⟩
        cases hq
        norm_num at h1)).1]
  · rw [((WithAnalyticsRate_spec (.Inf false) ⟨"mongo", .finite 1, []⟩
      ⟨"", "", ⟨""⟩, .NaN, fun _ _ => ""⟩).2 (by rintro ⟨q, hq, _⟩; cases hq)).1]
  · rw [((WithAnalyticsRate_spec .NaN ⟨"mongo", .finite 1, []⟩
      ⟨"", "", ⟨""⟩, .NaN, fun _ _ => ""⟩).2 (by rintro ⟨q, hq, _⟩; cases hq)).1]

/-- C18: applying `WithSpanOptions(a...)` and then `WithSpanOptions(b...)` to a mongo config
leaves `spanOpts` equal to the previous options followed by `a` followed by `b`, and changes
neither `serviceName` nor `analyticsRate`. -/
theorem WithSpanOptions_append (cfg : mongo.config) (a b : List mongo.StartSpanOption) :
    mongo.WithSpanOptions b (mongo.WithSpanOptions a cfg)
      = ⟨cfg.serviceName, cfg.analyticsRate, cfg.spanOpts ++ a ++ b⟩ := by
  simp [mongo.WithSpanOptions]

namespace httpsec

/-! ## Claims on package initialisation -/

theorem init_eq (os : OS) (jsonFirst : Bool) (ts : Templates) (log : List LogEntry) :
    (init os jsonFirst ts log).1
        = ⟨selectedTemplate os envBlockedTemplateJSON ts.blockedTemplateJSON,
           selectedTemplate os envBlockedTemplateHTML ts.blockedTemplateHTML⟩
      ∧ (init os jsonFirst ts log).2
          = log ++ (if jsonFirst then
              dueWarnings os envBlockedTemplateJSON ++ dueWarnings os envBlockedTemplateHTML
            else
              dueWarnings os envBlockedTemplateHTML ++ dueWarnings os envBlockedTemplateJSON) := by
  cases jsonFirst <;>
    simp only [init, initEntries, List.foldl_cons, List.foldl_nil, initStep, selectedTemplate,
      dueWarnings, if_true, if_false, Bool.false_eq_true] <;>
    cases os.LookupEnv envBlockedTemplateJSON <;>
    cases os.LookupEnv envBlockedTemplateHTML <;>
    simp only [TemplateRef.assign, List.append_nil] <;>
    (try split) <;> (try split) <;> simp_all [TemplateRef.assign]

/-- C13: `init` always completes, and for each of the two variables independently of the
other: when the variable is set and its file is read, the template becomes the contents of
the file; when the variable is unset or the read fails, the template keeps its embedded
default; each failed read logs one warning and nothing else is logged. This holds in either
order in which the two variables are visited. -/
theorem init_templates (os : OS) (jsonFirst : Bool) (ts : Templates) (log : List LogEntry) :
    (∀ path t, os.LookupEnv envBlockedTemplateJSON = some path → os.ReadFile path = .ok t →
        (init os jsonFirst ts log).1.blockedTemplateJSON = t)
      ∧ (∀ path err, os.LookupEnv envBlockedTemplateJSON = some path →
          os.ReadFile path = .error err →
          (init os jsonFirst ts log).1.blockedTemplateJSON = ts.blockedTemplateJSON)
      ∧ (os.LookupEnv envBlockedTemplateJSON = none →
          (init os jsonFirst ts log).1.blockedTemplateJSON = ts.blockedTemplateJSON)
      ∧ (∀ path t, os.LookupEnv envBlockedTemplateHTML = some path → os.ReadFile path = .ok t →
          (init os jsonFirst ts log).1.blockedTemplateHTML = t)
      ∧ (∀ path err, os.LookupEnv envBlockedTemplateHTML = some path →
          os.ReadFile path = .error err →
          (init os jsonFirst ts log).1.blockedTemplateHTML = ts.blockedTemplateHTML)
      ∧ (os.LookupEnv envBlockedTemplateHTML = none →
          (init os jsonFirst ts log).1.blockedTemplateHTML = ts.blockedTemplateHTML)
      ∧ (init os jsonFirst ts log).2
          = log ++ (if jsonFirst then
              dueWarnings os envBlockedTemplateJSON ++ dueWarnings os envBlockedTemplateHTML
            else
              dueWarnings os envBlockedTemplateHTML ++ dueWarnings os envBlockedTemplateJSON) := by
  obtain ⟨h1, h2⟩ := init_eq os jsonFirst ts log
  rw [h1]
  refine ⟨?_, ?_, ?_, ?_, ?_, ?_, h2⟩
  · intro path t hp hr
    simp [selectedTemplate, hp, hr]
  · intro path err hp hr
    simp [selectedTemplate, hp, hr]
  · intro hp
    simp [selectedTemplate, hp]
  · intro path t hp hr
    simp [selectedTemplate, hp, hr]
  · intro path err hp hr
    simp [selectedTemplate, hp, hr]
  · intro hp
    simp [selectedTemplate, hp]

/-- Witness of C13: the JSON file cannot be read and the HTML file can: the JSON template keeps
its default and the HTML template takes the contents of the file. -/
theorem init_templates_witness :
    (init sampleOS true ⟨"json default", "html default"⟩ []).1.blockedTemplateJSON
        = "json default"
      ∧ (init sampleOS true ⟨"json default", "html default"⟩ []).1.blockedTemplateHTML
          = "<html>blocked</html>" :=
  ⟨(init_templates sampleOS true ⟨"json default", "html default"⟩ []).2.1
      "/etc/blocked.json" "no such file or directory" (by decide) rfl,
   (init_templates sampleOS true ⟨"json default", "html default"⟩ []).2.2.2.1
      "/etc/blocked.html" "<html>blocked</html>" (by decide) rfl⟩

/-! ## Claims on the listener types -/

theorem dyngo_StartOperation_total (w : World) (op : dyngo.Operation) (v : Payload)
    (hd : dyngo.Dispatchable op v = true) :
    ∃ w1, dyngo.StartOperation w op v = some w1
      ∧ w1.trace = w.trace ++ [⟨.start, op, v⟩] ∧ w1.ops = w.ops ∧ w1.log = w.log
      ∧ w1.listeners = w.listeners := by
  obtain ⟨s1, hs1⟩ := emitEvent_isSome (dyngo.reached w .start op.id) op v hd w.store
  exact ⟨{ w with store := s1, trace := w.trace ++ [⟨.start, op, v⟩] },
    by simp only [dyngo.StartOperation, hs1], rfl, rfl, rfl, rfl⟩

theorem dyngo_FinishOperation_total (w : World) (op : dyngo.Operation) (v : Payload)
    (hd : dyngo.Dispatchable op v = true) :
    ∃ w1 ds, dyngo.FinishOperation w op v = some w1
      ∧ w1.trace = w.trace ++ ds ∧ (∀ d ∈ ds, d = ⟨.finish, op, v⟩) ∧ w1.log = w.log
      ∧ w1.listeners = w.listeners := by
  obtain ⟨s1, hs1⟩ := emitEvent_isSome (dyngo.reached w .finish op.id) op v hd w.store
  unfold dyngo.FinishOperation
  split
  · rw [hs1]
    exact ⟨_, [⟨.finish, op, v⟩], rfl, rfl, by simp, rfl, rfl⟩
  · exact ⟨w, [], rfl, by simp, by simp, rfl, rfl⟩

/-- C14: the four listener types declare four pairwise distinct listened types, those of the
four payloads; whenever the operation and the payload are a pair that the package dispatches,
a listener whose listened type is the type of the payload passes both type assertions of its
`Call`; and `StartOperation`, `Operation.Finish`, `StartSDKBodyOperation` and
`SDKBodyOperation.Finish` dispatch such pairs only and never panic. -/
theorem listeners_type_safe :
    (∀ f1 f2 f3 f4,
        [(EventListener.OnHandlerOperationStart f1).ListenedType,
         (EventListener.OnHandlerOperationFinish f2).ListenedType,
         (EventListener.OnSDKBodyOperationStart f3).ListenedType,
         (EventListener.OnSDKBodyOperationFinish f4).ListenedType].Nodup)
      ∧ (∀ f1 f2 f3 f4 a r b e,
          (EventListener.OnHandlerOperationStart f1).ListenedType
              = (Payload.handlerOperationArgs a).TypeOf
            ∧ (EventListener.OnHandlerOperationFinish f2).ListenedType
              = (Payload.handlerOperationRes r).TypeOf
            ∧ (EventListener.OnSDKBodyOperationStart f3).ListenedType
              = (Payload.sdkBodyOperationArgs b).TypeOf
            ∧ (EventListener.OnSDKBodyOperationFinish f4).ListenedType
              = (Payload.sdkBodyOperationRes e).TypeOf)
      ∧ (∀ (l : EventListener) op v s, dyngo.Dispatchable op v = true →
          l.ListenedType = v.TypeOf → ∃ s1, l.Call op v s = some s1)
      ∧ (∀ w ctx args, ∃ w1 ctx1 op d, StartOperation w ctx args = some (w1, ctx1, op)
          ∧ w1.trace = w.trace ++ [d] ∧ dyngo.Dispatchable d.op d.payload = true)
      ∧ (∀ w op res, ∃ w1 evs ds, Operation.Finish w op res = some (w1, evs)
          ∧ w1.trace = w.trace ++ ds ∧ ∀ d ∈ ds, dyngo.Dispatchable d.op d.payload = true)
      ∧ (∀ w parent args, ∃ w1 op d, StartSDKBodyOperation w parent args = some (w1, op)
          ∧ w1.trace = w.trace ++ [d] ∧ dyngo.Dispatchable d.op d.payload = true)
      ∧ (∀ w op, ∃ w1 ds, SDKBodyOperation.Finish w op = some w1
          ∧ w1.trace = w.trace ++ ds ∧ ∀ d ∈ ds, dyngo.Dispatchable d.op d.payload = true) := by
  refine ⟨?_, ?_, ?_, ?_, ?_, ?_, ?_⟩
  · intro f1 f2 f3 f4
    simp [EventListener.ListenedType]
  · intro f1 f2 f3 f4 a r b e
    exact ⟨rfl, rfl, rfl, rfl⟩
  · intro l op v s hd ht
    cases l <;> cases op <;> cases v <;>
      simp_all [EventListener.ListenedType, Payload.TypeOf, EventListener.Call,
        dyngo.Dispatchable]
  · intro w ctx args
    obtain ⟨w1, h1, h2, _⟩ := dyngo_StartOperation_total
      { w with
        ops := w.ops ++ [⟨none, false⟩]
        store := Function.update w.store w.ops.length ⟨[], [], []⟩ }
      (.http w.ops.length) (.handlerOperationArgs args) rfl
    refine ⟨w1, .WithValue ctx .instrumentation (.httpOperation (some w.ops.length)),
      w.ops.length, _, ?_, h2, rfl⟩
    simp only [StartOperation, dyngo.NewOperation, h1]
  · intro w op res
    obtain ⟨w1, ds, h1, h2, h3, _⟩ := dyngo_FinishOperation_total w (.http op)
      (.handlerOperationRes res) rfl
    refine ⟨w1, Operation.Events w1 op, ds, ?_, h2, ?_⟩
    · simp only [Operation.Finish, h1]
    · intro d hd
      rw [h3 d hd]
      rfl
  · intro w parent args
    obtain ⟨w1, h1, h2, _⟩ := dyngo_StartOperation_total
      { w with ops := w.ops ++ [⟨some parent, false⟩] }
      (.sdkBody w.ops.length) (.sdkBodyOperationArgs args) rfl
    refine ⟨w1, w.ops.length, _, ?_, h2, rfl⟩
    simp only [StartSDKBodyOperation, dyngo.NewOperation, h1]
  · intro w op
    obtain ⟨w1, ds, h1, h2, h3, _⟩ := dyngo_FinishOperation_total w (.sdkBody op)
      (.sdkBodyOperationRes {}) rfl
    refine ⟨w1, ds, ?_, h2, ?_⟩
    · simp only [SDKBodyOperation.Finish, h1]
    · intro d hd
      rw [h3 d hd]
      rfl

/-- Witness of C14: a finish listener called on an HTTP operation with handler results. -/
theorem listeners_type_safe_witness :
    ∃ s1, (addEventOnFinish "e").Call (.http 0) (.handlerOperationRes ⟨200⟩)
      World.initial.store = some s1 :=
  listeners_type_safe.2.2.1 (addEventOnFinish "e") (.http 0) (.handlerOperationRes ⟨200⟩)
    World.initial.store rfl rfl

/-! ## Claims on the blocked-request tag -/

theorem actions_split (as : List Action) :
    (∀ x ∈ as, x.isBlock = false)
      ∨ ∃ pre a post, as = pre ++ Action.block a :: post ∧ ∀ x ∈ pre, x.isBlock = false := by
  induction as with
  | nil => exact Or.inl (by simp)
  | cons x rest ih =>
    cases x with
    | block a => exact Or.inr ⟨[], a, rest, rfl, by simp⟩
    | other t =>
      rcases ih with h | ⟨pre, a, post, h1, h2⟩
      · left
        intro y hy
        rcases List.mem_cons.1 hy with rfl | hy
        · rfl
        · exact h y hy
      · right
        refine ⟨Action.other t :: pre, a, post, by rw [h1]; rfl, ?_⟩
        intro y hy
        rcases List.mem_cons.1 hy with rfl | hy
        · rfl
        · exact h2 y hy

theorem applyActionsLoop_block_store (op : OpId) (pre post : List Action)
    (a : BlockRequestAction) (hpre : ∀ x ∈ pre, x.isBlock = false) (w : World) :
    (applyActionsLoop w op (pre ++ Action.block a :: post)).1.store
      = (Operation.AddTag w op BlockedRequestTag (.bool true)).store := by
  induction pre generalizing w with
  | nil => simp [applyActionsLoop]
  | cons x rest ih =>
    have hx := hpre x (List.mem_cons_self _ _)
    have hrest : ∀ y ∈ rest, y.isBlock = false :=
      fun y hy => hpre y (List.mem_cons_of_mem _ hy)
    cases x with
    | block b => simp [Action.isBlock] at hx
    | other t =>
      have e : applyActionsLoop w op (Action.other t :: rest ++ Action.block a :: post)
          = applyActionsLoop
              (log.Error w ("appsec: ignoring security action: unexpected action type " ++ t))
              op (rest ++ Action.block a :: post) := rfl
      rw [e, ih hrest]
      rfl

/-- C20: `applyActions(op)` returns a non-nil handler if and only if the pending actions of
`op` contain a block-request action; in that case the tags of `op` afterwards are its tags
before with the blocked-request tag set to true, and when it returns nil the tags of `op`
are unchanged. -/
theorem applyActions_blocked_tag (w : World) (op : OpId) :
    ((applyActions w op).2 ≠ none ↔ ∃ a ∈ Operation.Actions w op, a.isBlock = true)
      ∧ ((applyActions w op).2 ≠ none →
          Operation.Tags (applyActions w op).1 op
              = (Operation.Tags w op).set BlockedRequestTag (.bool true)
            ∧ (Operation.Tags (applyActions w op).1 op).get BlockedRequestTag
              = some (.bool true))
      ∧ ((applyActions w op).2 = none →
          Operation.Tags (applyActions w op).1 op = Operation.Tags w op) := by
  have htags : ∀ w1 : World, Operation.Tags (Operation.ClearActions w1 op) op
      = Operation.Tags w1 op := by
    intro w1
    simp [Operation.Tags, Operation.ClearActions]
  rcases actions_split (Operation.Actions w op) with hno | ⟨pre, a, post, hsplit, hpre⟩
  · obtain ⟨h1, _, h3⟩ := applyActionsLoop_no_block op _ hno w
    have hres : (applyActions w op).2 = none := h1
    have htag : Operation.Tags (applyActions w op).1 op = Operation.Tags w op := by
      simp only [applyActions, htags]
      simp only [Operation.Tags, h3]
    refine ⟨⟨fun h => absurd hres h, ?_⟩, fun h => absurd hres h, fun _ => htag⟩
    rintro ⟨x, hx, hb⟩
    rw [hno x hx] at hb
    exact absurd hb (by decide)
  · obtain ⟨h1, _⟩ := applyActionsLoop_block op pre post a hpre w
    have h3 := applyActionsLoop_block_store op pre post a hpre w
    have hres : (applyActions w op).2 = some a.handler := by
      simp only [applyActions, hsplit]
      exact h1
    have htag : Operation.Tags (applyActions w op).1 op
        = (Operation.Tags w op).set BlockedRequestTag (.bool true) := by
      simp only [applyActions, htags, hsplit]
      simp only [Operation.Tags, h3]
      simp [Operation.AddTag]
    refine ⟨⟨fun _ => ⟨Action.block a, ?_, rfl⟩, fun _ => by simp [hres]⟩, fun _ => ⟨htag, ?_⟩,
      fun h => ?_⟩
    · rw [hsplit]
      simp
    · rw [htag, GoMap.get_set]
      simp
    · rw [hres] at h
      exact absurd h (by simp)

/-- Witness of C20: with one block action pending, a handler is returned and the tag is set;
with an action of another kind only, nil is returned and the tags stay empty. -/
theorem applyActions_blocked_tag_witness :
    (Operation.Tags (applyActions (addActions World.initial 0 [.block ⟨⟨"b"⟩⟩]) 0).1 0).get
        BlockedRequestTag = some (.bool true)
      ∧ Operation.Tags (applyActions (addActions World.initial 0 [.other "int"]) 0).1 0
          = Operation.Tags (addActions World.initial 0 [.other "int"]) 0 :=
  ⟨((applyActions_blocked_tag (addActions World.initial 0 [.block ⟨⟨"b"⟩⟩]) 0).2.1
      (by simp [applyActions, addActions, Operation.Actions, Operation.AddAction,
        Operation.ClearActions, applyActionsLoop])).2,
   (applyActions_blocked_tag (addActions World.initial 0 [.other "int"]) 0).2.2
      (by simp [applyActions, addActions, Operation.Actions, Operation.AddAction,
        Operation.ClearActions, applyActionsLoop])⟩

/-! ## Lemmas on the wrapped handler -/

theorem StartOperation_total (w : World) (ctx : Context) (args : HandlerOperationArgs) :
    ∃ w1 ctx1 op, StartOperation w ctx args = some (w1, ctx1, op) := by
  obtain ⟨w1, h1, _⟩ := dyngo_StartOperation_total
    { w with
      ops := w.ops ++ [⟨none, false⟩]
      store := Function.update w.store w.ops.length ⟨[], [], []⟩ }
    (.http w.ops.length) (.handlerOperationArgs args) rfl
  exact ⟨w1, .WithValue ctx .instrumentation (.httpOperation (some w.ops.length)),
    w.ops.length, by simp only [StartOperation, dyngo.NewOperation, h1]⟩

theorem Operation_Finish_total (w : World) (op : OpId) (res : HandlerOperationRes) :
    ∃ w1 evs, Operation.Finish w op res = some (w1, evs) := by
  obtain ⟨w1, _, h1, _⟩ := dyngo_FinishOperation_total w (.http op)
    (.handlerOperationRes res) rfl
  exact ⟨w1, Operation.Events w1 op, by simp only [Operation.Finish, h1]⟩

theorem applyActions_block (w : World) (op : OpId) (pre post : List Action)
    (a : BlockRequestAction) (hact : Operation.Actions w op = pre ++ Action.block a :: post)
    (hpre : ∀ x ∈ pre, x.isBlock = false) : (applyActions w op).2 = some a.handler := by
  simp only [applyActions, hact]
  exact (applyActionsLoop_block op pre post a hpre w).1

theorem applyActions_no_block (w : World) (op : OpId)
    (hno : ∀ x ∈ Operation.Actions w op, x.isBlock = false) : (applyActions w op).2 = none :=
  (applyActionsLoop_no_block op _ hno w).1

theorem body_of_start (L : Lib) (D : Deps) (c : Closure) (p : Process) (rw : ResponseWriter)
    (r : Incoming) (w1 : World) (ctx1 : Context) (op : OpId)
    (hstart : StartOperation p.world r.ctx
        (MakeHandlerOperationArgs L r.req (D.ClientIPTags r.req.Header true r.RemoteAddr).2
          c.pathParams) = some (w1, ctx1, op)) :
    ∃ f, Closure.body L D c p rw r = some f
      ∧ f.closure = c.assign (applyActions w1 op).2
      ∧ f.process.invoked = p.invoked ++ [⟨.handler, (c.assign (applyActions w1 op).2).handler⟩]
      ∧ f.op = op := by
  simp only [Closure.body, hstart]
  exact ⟨_, rfl, rfl, rfl, rfl⟩

theorem deferred_total (D : Deps) (f : Frame) :
    ∃ p3 rw3 rest, Closure.deferred D f = some (p3, rw3)
      ∧ p3.invoked = f.process.invoked ++ rest
      ∧ ∀ x ∈ rest, x.site = CallSite.finishAction := by
  obtain ⟨w1, evs, hfin⟩ := Operation_Finish_total f.process.world f.op
    { Status := f.writer.statusOrZero }
  simp only [Closure.deferred, hfin]
  cases h : (applyActions w1 f.op).2 with
  | none =>
    by_cases hev : evs.length = 0
    · simp only [hev, if_true]
      exact ⟨_, _, [], rfl, by simp, by simp⟩
    · simp only [hev, if_false]
      exact ⟨_, _, [], rfl, by simp, by simp⟩
  | some b =>
    by_cases hev : evs.length = 0
    · simp only [hev, if_true]
      exact ⟨_, _, [⟨.finishAction, b⟩], rfl, rfl, by simp⟩
    · simp only [hev, if_false]
      exact ⟨_, _, [⟨.finishAction, b⟩], rfl, rfl, by simp⟩

theorem deferred_block (D : Deps) (f : Frame) (w4 : World) (evs : List String)
    (b : Handler) (pre post : List Action)
    (hfin : Operation.Finish f.process.world f.op { Status := f.writer.statusOrZero }
      = some (w4, evs))
    (hact : Operation.Actions w4 f.op = pre ++ Action.block ⟨b⟩ :: post)
    (hpre : ∀ x ∈ pre, x.isBlock = false) :
    ∃ p3 rw3, Closure.deferred D f = some (p3, rw3)
      ∧ p3.invoked = f.process.invoked ++ [⟨.finishAction, b⟩]
      ∧ p3.world.store
          = (D.ServeHTTP b f.request ((applyActions w4 f.op).1.store, f.writer)).1 := by
  have hb := applyActions_block w4 f.op pre post ⟨b⟩ hact hpre
  simp only [Closure.deferred, hfin, hb]
  by_cases hev : evs.length = 0
  · simp only [hev, if_true]
    exact ⟨_, _, rfl, rfl, rfl⟩
  · simp only [hev, if_false]
    exact ⟨_, _, rfl, rfl, rfl⟩

theorem body_frame (L : Lib) (D : Deps) (c : Closure) (p : Process) (rw : ResponseWriter)
    (r : Incoming) (f : Frame) (hbody : Closure.body L D c p rw r = some f) :
    ∃ w1 ctx1, StartOperation p.world r.ctx
        (MakeHandlerOperationArgs L r.req (D.ClientIPTags r.req.Header true r.RemoteAddr).2
          c.pathParams) = some (w1, ctx1, f.op)
      ∧ f.closure = c.assign (applyActions w1 f.op).2
      ∧ f.process.invoked = p.invoked ++ [⟨.handler, f.closure.handler⟩] := by
  obtain ⟨w1, ctx1, op, hstart⟩ := StartOperation_total p.world r.ctx
    (MakeHandlerOperationArgs L r.req (D.ClientIPTags r.req.Header true r.RemoteAddr).2
      c.pathParams)
  obtain ⟨g, hg, hclo, hinv, hop⟩ := body_of_start L D c p rw r w1 ctx1 op hstart
  have hfg : f = g := Option.some.inj (hbody.symm.trans hg)
  subst hfg
  subst hop
  exact ⟨w1, ctx1, hstart, hclo, by rw [hinv, hclo]⟩

theorem deferred_cases (D : Deps) (f : Frame) :
    ∃ w4 evs p3 rw3 rest,
      Operation.Finish f.process.world f.op { Status := f.writer.statusOrZero }
          = some (w4, evs)
        ∧ Closure.deferred D f = some (p3, rw3)
        ∧ p3.invoked = f.process.invoked ++ rest
        ∧ ((∀ x ∈ Operation.Actions w4 f.op, x.isBlock = false) → rest = [])
        ∧ (∀ pre a post, Operation.Actions w4 f.op = pre ++ Action.block a :: post →
            (∀ x ∈ pre, x.isBlock = false) → rest = [⟨.finishAction, a.handler⟩])
        ∧ ∀ x ∈ rest, x.site = CallSite.finishAction := by
  obtain ⟨w4, evs, hfin⟩ := Operation_Finish_total f.process.world f.op
    { Status := f.writer.statusOrZero }
  rcases actions_split (Operation.Actions w4 f.op) with hno | ⟨pre0, a0, post0, hsplit, hpre0⟩
  · have hnone := applyActions_no_block w4 f.op hno
    have hdef : ∃ p3 rw3, Closure.deferred D f = some (p3, rw3)
        ∧ p3.invoked = f.process.invoked ++ [] := by
      simp only [Closure.deferred, hfin, hnone]
      by_cases hev : evs.length = 0
      · simp only [hev, if_true]
        exact ⟨_, _, rfl, by simp⟩
      · simp only [hev, if_false]
        exact ⟨_, _, rfl, by simp⟩
    obtain ⟨p3, rw3, h1, h2⟩ := hdef
    refine ⟨w4, evs, p3, rw3, [], hfin, h1, h2, fun _ => rfl, ?_, by simp⟩
    intro pre a post hact _
    have hmem : Action.block a ∈ Operation.Actions w4 f.op := by
      rw [hact]
      simp
    have := hno _ hmem
    simp [Action.isBlock] at this
  · have hsome := applyActions_block w4 f.op pre0 post0 a0 hsplit hpre0
    have hdef : ∃ p3 rw3, Closure.deferred D f = some (p3, rw3)
        ∧ p3.invoked = f.process.invoked ++ [⟨.finishAction, a0.handler⟩] := by
      simp only [Closure.deferred, hfin, hsome]
      by_cases hev : evs.length = 0
      · simp only [hev, if_true]
        exact ⟨_, _, rfl, rfl⟩
      · simp only [hev, if_false]
        exact ⟨_, _, rfl, rfl⟩
    obtain ⟨p3, rw3, h1, h2⟩ := hdef
    refine ⟨w4, evs, p3, rw3, [⟨.finishAction, a0.handler⟩], hfin, h1, h2, ?_, ?_, by simp⟩
    · intro hno
      have hmem : Action.block a0 ∈ Operation.Actions w4 f.op := by
        rw [hsplit]
        simp
      have := hno _ hmem
      simp [Action.isBlock] at this
    · intro pre a post hact hpre
      have h3 := applyActions_block w4 f.op pre post a hact hpre
      rw [hsome] at h3
      injection h3 with h4
      rw [h4]

/-! ## Claims on the wrapped handler -/

/-- C11 fails as stated. With two start listeners that add block actions with handlers `b1`
and `b2`, both actions are pending after the start dispatch, yet the closure wrapping `h`
serves the request by calling `b1` only: `b2` is never called. With a start listener blocking
with `block` and a finish listener adding a block action whose handler is `h`, the closure
calls `block` and then `h`: the wrapped handler is called for that request. -/
theorem WrapHandler_start_block_counterexample :
    (StartOperation
        (Process.withRootListeners
          [blockOnStart "/admin" ⟨"b1"⟩, blockOnStart "/admin" ⟨"b2"⟩]).world
        (requestFor "/admin").ctx
        (MakeHandlerOperationArgs (asciiLib []) (requestFor "/admin").req "1.2.3.4" [])).map
          (fun x => Operation.Actions x.1 x.2.2)
        = some [.block ⟨⟨"b1"⟩⟩, .block ⟨⟨"b2"⟩⟩]
      ∧ (Closure.ServeHTTP (asciiLib []) quietDeps
          (WrapHandler (Process.withRootListeners
            [blockOnStart "/admin" ⟨"b1"⟩, blockOnStart "/admin" ⟨"b2"⟩]) ⟨"h"⟩ []).2
          (WrapHandler (Process.withRootListeners
            [blockOnStart "/admin" ⟨"b1"⟩, blockOnStart "/admin" ⟨"b2"⟩]) ⟨"h"⟩ []).1
          ⟨none, []⟩ (requestFor "/admin")).map (fun x => x.2.1.invoked)
        = some [⟨.handler, ⟨"b1"⟩⟩]
      ∧ (Closure.ServeHTTP (asciiLib []) quietDeps
          (WrapHandler (Process.withRootListeners
            [blockOnStart "/admin" ⟨"block"⟩, blockOnFinish ⟨"h"⟩]) ⟨"h"⟩ []).2
          (WrapHandler (Process.withRootListeners
            [blockOnStart "/admin" ⟨"block"⟩, blockOnFinish ⟨"h"⟩]) ⟨"h"⟩ []).1
          ⟨none, []⟩ (requestFor "/admin")).map (fun x => x.2.1.invoked)
        = some [⟨.handler, ⟨"block"⟩⟩, ⟨.finishAction, ⟨"h"⟩⟩] := by
  decide

/-- C11, amended: when the first block-request action that the start dispatch of a request
leaves on the operation has handler `b`, the handler returned by `WrapHandler` serves the
request by calling `b.ServeHTTP` where it would have called the wrapped handler, and holds `b`
afterwards. Its only other call, if any, is on the handler of the first block-request action
pending after the finish dispatch: there is none when no such action is pending. The wrapped
handler, when it is not `b` itself, is not called in the place of `b`. -/
theorem WrapHandler_start_block (L : Lib) (D : Deps) (c : Closure) (p : Process)
    (rw : ResponseWriter) (r : Incoming) (b : Handler) (w1 : World) (ctx1 : Context)
    (op : OpId) (pre post : List Action)
    (hstart : StartOperation p.world r.ctx
        (MakeHandlerOperationArgs L r.req (D.ClientIPTags r.req.Header true r.RemoteAddr).2
          c.pathParams) = some (w1, ctx1, op))
    (hact : Operation.Actions w1 op = pre ++ Action.block ⟨b⟩ :: post)
    (hpre : ∀ x ∈ pre, x.isBlock = false) :
    ∃ c1 p1 rw1 rest f w4 evs,
      Closure.body L D c p rw r = some f
        ∧ Closure.ServeHTTP L D c p rw r = some (c1, p1, rw1)
        ∧ c1.handler = b
        ∧ p1.invoked = p.invoked ++ ⟨.handler, b⟩ :: rest
        ∧ (∀ x ∈ rest, x.site = CallSite.finishAction)
        ∧ (c.handler ≠ b → (⟨.handler, c.handler⟩ : Invocation) ∉ ⟨.handler, b⟩ :: rest)
        ∧ Operation.Finish f.process.world f.op { Status := f.writer.statusOrZero }
            = some (w4, evs)
        ∧ ((∀ x ∈ Operation.Actions w4 f.op, x.isBlock = false) → rest = [])
        ∧ (∀ pre2 a2 post2, Operation.Actions w4 f.op = pre2 ++ Action.block a2 :: post2 →
            (∀ x ∈ pre2, x.isBlock = false) → rest = [⟨.finishAction, a2.handler⟩]) := by
  obtain ⟨f, hbody, hclo, hinv, _⟩ := body_of_start L D c p rw r w1 ctx1 op hstart
  have hb := applyActions_block w1 op pre post ⟨b⟩ hact hpre
  rw [hb] at hinv hclo
  simp only [Closure.assign] at hinv hclo
  obtain ⟨w4, evs, p3, rw3, rest, hfin, hdef, hinv3, hnone, hfirst, hrest⟩ :=
    deferred_cases D f
  refine ⟨f.closure, p3, rw3, rest, f, w4, evs, hbody, ?_, ?_, ?_, hrest, ?_, hfin, hnone,
    hfirst⟩
  · simp only [Closure.ServeHTTP, hbody, hdef]
  · rw [hclo]
  · rw [hinv3, hinv]
    simp
  · intro hne hmem
    rcases List.mem_cons.1 hmem with h | h
    · injection h with _ h2
      exact hne h2
    · have h3 := hrest _ h
      simp at h3

/-- Witness of C11 amended: a start listener blocks `/admin` with handler `block`; the
closure wrapping `h` serves `/admin` by calling `block`. -/
theorem WrapHandler_start_block_witness :
    ∃ c1 p1 rw1 rest, Closure.ServeHTTP (asciiLib []) quietDeps ⟨⟨"h"⟩, []⟩
          (Process.withRootListeners [blockOnStart "/admin" ⟨"block"⟩]) ⟨none, []⟩
          (requestFor "/admin") = some (c1, p1, rw1)
      ∧ c1.handler = ⟨"block"⟩
      ∧ p1.invoked = (Process.withRootListeners [blockOnStart "/admin" ⟨"block"⟩]).invoked
          ++ ⟨.handler, ⟨"block"⟩⟩ :: rest
      ∧ (∀ x ∈ rest, x.site = CallSite.finishAction) := by
  obtain ⟨c1, p1, rw1, rest, _, _, _, _, h2, h3, h4, h5, _⟩ :=
    WrapHandler_start_block (asciiLib []) quietDeps ⟨⟨"h"⟩, []⟩
      (Process.withRootListeners [blockOnStart "/admin" ⟨"block"⟩]) ⟨none, []⟩
      (requestFor "/admin") ⟨"block"⟩ _ _ _ [] [] rfl rfl (by simp)
  exact ⟨c1, p1, rw1, rest, h2, h3, h4, h5⟩

/-- C12 fails as stated. With a finish listener that adds a block action with handler
`block`, the closure wrapping `h` first calls `h`, whose response is written, and calls
`block` only afterwards, in the deferred function: both handlers have served. With two finish
listeners adding block actions with handlers `f1` and `f2`, only `f1` is called after `h`.
And when the handler `block` itself adds an action to the operation while it serves, the
action list is not empty afterwards. -/
theorem WrapHandler_finish_block_counterexample :
    (Closure.ServeHTTP (asciiLib []) recordingDeps
        (WrapHandler (Process.withRootListeners [blockOnFinish ⟨"block"⟩]) ⟨"h"⟩ []).2
        (WrapHandler (Process.withRootListeners [blockOnFinish ⟨"block"⟩]) ⟨"h"⟩ []).1
        ⟨none, []⟩ (requestFor "/")).map (fun x => (x.2.1.invoked, x.2.2.Header))
        = some ([⟨.handler, ⟨"h"⟩⟩, ⟨.finishAction, ⟨"block"⟩⟩],
            [("X-Handler", ["h", "block"])])
      ∧ (Closure.ServeHTTP (asciiLib []) quietDeps
          (WrapHandler (Process.withRootListeners
            [blockOnFinish ⟨"f1"⟩, blockOnFinish ⟨"f2"⟩]) ⟨"h"⟩ []).2
          (WrapHandler (Process.withRootListeners
            [blockOnFinish ⟨"f1"⟩, blockOnFinish ⟨"f2"⟩]) ⟨"h"⟩ []).1
          ⟨none, []⟩ (requestFor "/")).map (fun x => x.2.1.invoked)
        = some [⟨.handler, ⟨"h"⟩⟩, ⟨.finishAction, ⟨"f1"⟩⟩]
      ∧ (Closure.ServeHTTP (asciiLib []) lateActionDeps
          (WrapHandler (Process.withRootListeners [blockOnFinish ⟨"block"⟩]) ⟨"h"⟩ []).2
          (WrapHandler (Process.withRootListeners [blockOnFinish ⟨"block"⟩]) ⟨"h"⟩ []).1
          ⟨none, []⟩ (requestFor "/")).map
            (fun x => (x.2.1.invoked, Operation.Actions x.2.1.world 0))
        = some ([⟨.handler, ⟨"h"⟩⟩, ⟨.finishAction, ⟨"block"⟩⟩], [.other "late"]) := by
  decide

/-- C12, amended: when the first block-request action pending on the operation after the
finish dispatch of a request has handler `b`, the handler returned by `WrapHandler` calls `b`
after it has called the handler held by the closure (the wrapped handler itself when the
request was not blocked at start), in addition to it, and makes no other call; the action
list of the operation is empty when `b` is called, the operation is left as `b` leaves it,
and its action list is empty afterwards too when `b` adds no action. -/
theorem WrapHandler_finish_block (L : Lib) (D : Deps) (c : Closure) (p : Process)
    (rw : ResponseWriter) (r : Incoming) (b : Handler) (f : Frame) (w4 : World)
    (evs : List String) (pre post : List Action)
    (hbody : Closure.body L D c p rw r = some f)
    (hfin : Operation.Finish f.process.world f.op { Status := f.writer.statusOrZero }
      = some (w4, evs))
    (hact : Operation.Actions w4 f.op = pre ++ Action.block ⟨b⟩ :: post)
    (hpre : ∀ x ∈ pre, x.isBlock = false) :
    ∃ p1 rw1, Closure.ServeHTTP L D c p rw r = some (f.closure, p1, rw1)
      ∧ p1.invoked = p.invoked ++ [⟨.handler, f.closure.handler⟩, ⟨.finishAction, b⟩]
      ∧ (∀ w1 ctx1, StartOperation p.world r.ctx
            (MakeHandlerOperationArgs L r.req
              (D.ClientIPTags r.req.Header true r.RemoteAddr).2 c.pathParams)
            = some (w1, ctx1, f.op) →
          (∀ x ∈ Operation.Actions w1 f.op, x.isBlock = false) →
          f.closure.handler = c.handler)
      ∧ Operation.Actions (applyActions w4 f.op).1 f.op = []
      ∧ p1.world.store
          = (D.ServeHTTP b f.request ((applyActions w4 f.op).1.store, f.writer)).1
      ∧ ((∀ s rw2, ((D.ServeHTTP b f.request (s, rw2)).1 f.op).actions = (s f.op).actions) →
          Operation.Actions p1.world f.op = []) := by
  obtain ⟨w1, ctx1, hstart, hclo, hinv⟩ := body_frame L D c p rw r f hbody
  obtain ⟨p3, rw3, hdef, hinv3, hstore⟩ := deferred_block D f w4 evs b pre post hfin hact hpre
  have hempty : Operation.Actions (applyActions w4 f.op).1 f.op = [] := by
    simp [applyActions, Operation.ClearActions, Operation.Actions]
  refine ⟨p3, rw3, ?_, ?_, ?_, hempty, hstore, ?_⟩
  · simp only [Closure.ServeHTTP, hbody, hdef]
  · rw [hinv3, hinv]
    simp
  · intro w1b ctx1b hstartb hno
    have heq : w1b = w1 := by
      have := hstartb.symm.trans hstart
      injection this with h
      injection h
    subst heq
    rw [hclo, applyActions_no_block w1b f.op hno]
    rfl
  · intro hb
    have h1 : Operation.Actions p3.world f.op = (p3.world.store f.op).actions := rfl
    rw [h1, hstore, hb]
    exact hempty

/-- Witness of C12 amended: a finish listener adds a block action with handler `block`; the
closure wrapping `h` calls `h`, then `block`, and the action list is empty at the end. -/
theorem WrapHandler_finish_block_witness :
    ∃ p1 rw1, Closure.ServeHTTP (asciiLib []) quietDeps ⟨⟨"h"⟩, []⟩
          (Process.withRootListeners [blockOnFinish ⟨"block"⟩]) ⟨none, []⟩ (requestFor "/")
          = some (⟨⟨"h"⟩, []⟩, p1, rw1)
      ∧ p1.invoked = [⟨.handler, ⟨"h"⟩⟩, ⟨.finishAction, ⟨"block"⟩⟩]
      ∧ Operation.Actions p1.world 0 = [] := by
  obtain ⟨p1, rw1, h1, h2, _, _, _, h6⟩ := WrapHandler_finish_block (asciiLib []) quietDeps
    ⟨⟨"h"⟩, []⟩ (Process.withRootListeners [blockOnFinish ⟨"block"⟩]) ⟨none, []⟩
    (requestFor "/") ⟨"block"⟩ _ _ _ [] [] rfl rfl rfl (by simp)
  exact ⟨p1, rw1, h1, h2, h6 (fun _ _ => rfl)⟩

/-- C19 fails as stated: the closure assigns the block handler to the captured variable
`handler`, so after one request blocked at start every later request is served by the block
handler. Here the closure wraps `h`, a start listener blocks `/admin` only, and the closure
returned by one call of `WrapHandler` serves `/admin` and then `/`: no block action is added
for `/` (its operation carries no blocked-request tag), yet `/` is served by `block`, and
the captured handler is `block` at the end. Served alone, `/` is served by `h`. -/
theorem WrapHandler_handler_overwritten :
    (Closure.serveAll (asciiLib []) quietDeps ⟨none, []⟩
        (WrapHandler (Process.withRootListeners [blockOnStart "/admin" ⟨"block"⟩]) ⟨"h"⟩ []).2
        (WrapHandler (Process.withRootListeners [blockOnStart "/admin" ⟨"block"⟩]) ⟨"h"⟩ []).1
        [requestFor "/admin", requestFor "/"]).map
          (fun x => (x.1.handler, x.2.invoked, Operation.Tags x.2.world 1))
        = some (⟨"block"⟩, [⟨.handler, ⟨"block"⟩⟩, ⟨.handler, ⟨"block"⟩⟩], [])
      ∧ (Closure.serveAll (asciiLib []) quietDeps ⟨none, []⟩
          (WrapHandler (Process.withRootListeners [blockOnStart "/admin" ⟨"block"⟩]) ⟨"h"⟩ []).2
          (WrapHandler (Process.withRootListeners [blockOnStart "/admin" ⟨"block"⟩]) ⟨"h"⟩ []).1
          [requestFor "/"]).map (fun x => (x.1.handler, x.2.invoked))
        = some (⟨"h"⟩, [⟨.handler, ⟨"h"⟩⟩]) := by
  decide

/-- C19, amended: a closure returned by `WrapHandler` for `h` holds `h`; while the closure
holds `h` (no request it served was blocked at start), a request during which no listener
adds a block action at start is served by calling `h`, and the closure still holds `h`
afterwards; when no block-request action is pending after the finish dispatch either, `h` is
the only handler called. -/
theorem WrapHandler_serves_wrapped (L : Lib) (D : Deps) (c : Closure) (p : Process)
    (rw : ResponseWriter) (r : Incoming) (h : Handler) (w1 : World) (ctx1 : Context)
    (op : OpId) (hc : c.handler = h)
    (hstart : StartOperation p.world r.ctx
        (MakeHandlerOperationArgs L r.req (D.ClientIPTags r.req.Header true r.RemoteAddr).2
          c.pathParams) = some (w1, ctx1, op))
    (hno : ∀ x ∈ Operation.Actions w1 op, x.isBlock = false) :
    (∀ p0 params, (WrapHandler p0 h params).2.handler = h)
      ∧ ∃ p1 rw1 rest f w4 evs,
        Closure.body L D c p rw r = some f
          ∧ Closure.ServeHTTP L D c p rw r = some (c, p1, rw1)
          ∧ p1.invoked = p.invoked ++ ⟨.handler, h⟩ :: rest
          ∧ (∀ x ∈ rest, x.site = CallSite.finishAction)
          ∧ Operation.Finish f.process.world f.op { Status := f.writer.statusOrZero }
              = some (w4, evs)
          ∧ ((∀ x ∈ Operation.Actions w4 f.op, x.isBlock = false) → rest = [])
          ∧ (∀ pre2 a2 post2, Operation.Actions w4 f.op = pre2 ++ Action.block a2 :: post2 →
              (∀ x ∈ pre2, x.isBlock = false) → rest = [⟨.finishAction, a2.handler⟩]) := by
  refine ⟨fun _ _ => rfl, ?_⟩
  obtain ⟨f, hbody, hclo, hinv, _⟩ := body_of_start L D c p rw r w1 ctx1 op hstart
  have hnone := applyActions_no_block w1 op hno
  rw [hnone] at hinv hclo
  simp only [Closure.assign] at hinv hclo
  obtain ⟨w4, evs, p3, rw3, rest, hfin, hdef, hinv3, hnone3, hfirst, hrest⟩ :=
    deferred_cases D f
  refine ⟨p3, rw3, rest, f, w4, evs, hbody, ?_, ?_, hrest, hfin, hnone3, hfirst⟩
  · simp only [Closure.ServeHTTP, hbody, hdef, hclo]
  · rw [hinv3, hinv, hc]
    simp

/-- Witness of C19 amended: a start listener blocks `/admin` only; the closure wrapping `h`
serves `/` by calling `h` and keeps holding `h`. -/
theorem WrapHandler_serves_wrapped_witness :
    ∃ p1 rw1 rest, Closure.ServeHTTP (asciiLib []) quietDeps
          (WrapHandler (Process.withRootListeners [blockOnStart "/admin" ⟨"block"⟩])
            ⟨"h"⟩ []).2
          (WrapHandler (Process.withRootListeners [blockOnStart "/admin" ⟨"block"⟩])
            ⟨"h"⟩ []).1
          ⟨none, []⟩ (requestFor "/")
          = some ((WrapHandler (Process.withRootListeners [blockOnStart "/admin" ⟨"block"⟩])
              ⟨"h"⟩ []).2, p1, rw1)
      ∧ p1.invoked = (WrapHandler (Process.withRootListeners
            [blockOnStart "/admin" ⟨"block"⟩]) ⟨"h"⟩ []).1.invoked
          ++ ⟨.handler, ⟨"h"⟩⟩ :: rest
      ∧ (∀ x ∈ rest, x.site = CallSite.finishAction) := by
  obtain ⟨_, p1, rw1, rest, _, _, _, _, h2, h3, h4, _⟩ :=
    WrapHandler_serves_wrapped (asciiLib []) quietDeps
      (WrapHandler (Process.withRootListeners [blockOnStart "/admin" ⟨"block"⟩]) ⟨"h"⟩ []).2
      (WrapHandler (Process.withRootListeners [blockOnStart "/admin" ⟨"block"⟩]) ⟨"h"⟩ []).1
      ⟨none, []⟩ (requestFor "/") ⟨"h"⟩ _ _ _ rfl rfl (by decide)
  exact ⟨p1, rw1, rest, h2, h3, h4⟩

end httpsec
